import Mathlib

/-!
Verification of the active-set and spatial-index core of the rapier
rigid-body physics engine, as implemented in
`src/dynamics/rigid_body_set.rs`, `src/geometry/collider_set.rs` and
`src/geometry/wquadtree.rs`.

The Rust code is shallowly embedded: `Vec` becomes `List` (with push at
the end so that indices coincide), the generational arena becomes a list
of slots carrying a generation counter, `f32` scalars become `ℚ`, and
operations that can panic return `Option`.  Components of the repository
that are not part of the three files above (the arena, the rigid-body
methods, the pub/sub, the AABB primitives) are modelled from the
specification; each such definition carries a doc comment saying so.
-/

namespace Rapier

/-- Modelled from the spec: a generational arena index, a pair of a slot
index and a generation (`crate::data::arena::Index`). -/
structure Index where
  idx : Nat
  gen : Nat
deriving DecidableEq, Repr

/-- Modelled from the spec: one arena slot: its current generation and its
(optional) occupant. -/
structure ArenaSlot (T : Type) where
  generation : Nat
  value : Option T
deriving DecidableEq, Repr

/-- Modelled from the spec: the generational arena (`crate::data::arena::Arena`):
a list of slots; a handle is live iff its slot is occupied and the
generations agree. -/
structure Arena (T : Type) where
  slots : List (ArenaSlot T)
deriving DecidableEq, Repr

namespace Arena

def empty : Arena T := ⟨[]⟩

/-- Modelled from the spec: `Arena::get`: `None` unless the slot is occupied
with a matching generation (ABA protection). -/
def get (a : Arena T) (h : Index) : Option T :=
  match a.slots[h.idx]? with
  | some s => if s.generation = h.gen then s.value else none
  | none => none

/-- Modelled from the spec: `Arena::contains`. -/
def contains (a : Arena T) (h : Index) : Bool :=
  (a.get h).isSome

/-- Index of the first free slot, if any (`insert` reuses the free slot with
the lowest index). -/
def firstFreeIdx : List (ArenaSlot T) → Option Nat
  | [] => none
  | s :: rest =>
    if s.value.isNone then some 0 else (firstFreeIdx rest).map (· + 1)

/-- Modelled from the spec: `Arena::insert`: reuse the lowest free slot
(keeping its current generation) or append a fresh slot at generation 0;
returns the handle just written. -/
def insert (a : Arena T) (v : T) : Index × Arena T :=
  match firstFreeIdx a.slots with
  | some i =>
    let g := ((a.slots[i]?).map (·.generation)).getD 0
    (⟨i, g⟩, ⟨a.slots.set i ⟨g, some v⟩⟩)
  | none => (⟨a.slots.length, 0⟩, ⟨a.slots ++ [⟨0, some v⟩]⟩)

/-- Modelled from the spec: `Arena::remove`: returns the value if present and
increments the slot generation. -/
def remove (a : Arena T) (h : Index) : Option T × Arena T :=
  match a.get h with
  | some v => (some v, ⟨a.slots.set h.idx ⟨h.gen + 1, none⟩⟩)
  | none => (none, a)

/-- Write through a live handle (the effect of mutating through
`&mut self.bodies[h]`); leaves the arena unchanged when the handle is dead
(call sites guard with `get` first). -/
def set (a : Arena T) (h : Index) (v : T) : Arena T :=
  match a.slots[h.idx]? with
  | some s =>
    if s.generation = h.gen ∧ s.value.isSome then
      ⟨a.slots.set h.idx ⟨s.generation, some v⟩⟩
    else a
  | none => a

theorem lt_length_of_getElem?_eq_some {l : List α} {i : Nat} {s : α}
    (hs : l[i]? = some s) : i < l.length := by
  by_contra hcon
  have hnone : l[i]? = none := List.getElem?_eq_none_iff.mpr (by omega)
  simp [hnone] at hs

theorem get_set_same (a : Arena T) (h : Index) (v : T) (hl : (a.get h).isSome) :
    (a.set h v).get h = some v := by
  unfold get at hl ⊢
  unfold set
  cases hs : a.slots[h.idx]? with
  | none => simp [hs] at hl
  | some s =>
    simp only [hs] at hl
    by_cases hg : s.generation = h.gen
    · have hv : s.value.isSome := by simpa [hg] using hl
      have hlt : h.idx < a.slots.length := lt_length_of_getElem?_eq_some hs
      simp [hs, hg, hv, List.getElem?_set, hlt]
    · simp [hg] at hl

theorem get_set_ne (a : Arena T) (h h' : Index) (v : T) (hne : h' ≠ h) :
    (a.set h v).get h' = a.get h' := by
  unfold set
  cases hs : a.slots[h.idx]? with
  | none => rfl
  | some s =>
    by_cases hg : s.generation = h.gen ∧ s.value.isSome
    · simp only [hg, if_true]
      unfold get
      by_cases hi : h.idx = h'.idx
      · have hgne : h'.gen ≠ h.gen := by
          intro hc; exact hne (by cases h; cases h'; simp_all)
        have hlt : h.idx < a.slots.length := lt_length_of_getElem?_eq_some hs
        rw [← hi] at *
        simp [List.getElem?_set, hlt, hs, hg.1, hgne, Ne.symm hgne]
      · simp [List.getElem?_set_ne hi]
    · simp [hg]

theorem get_remove_same (a : Arena T) (h : Index) :
    ((a.remove h).2).get h = none := by
  unfold remove
  cases hv : a.get h with
  | none => simpa using hv
  | some v =>
    unfold get at hv ⊢
    cases hs : a.slots[h.idx]? with
    | none => simp [hs] at hv
    | some s =>
      have hlt : h.idx < a.slots.length := lt_length_of_getElem?_eq_some hs
      simp [List.getElem?_set, hlt]

theorem get_remove_ne (a : Arena T) (h h' : Index) (hne : h' ≠ h) :
    ((a.remove h).2).get h' = a.get h' := by
  unfold remove
  cases hv : a.get h with
  | none => rfl
  | some v =>
    unfold get at hv ⊢
    cases hs : a.slots[h.idx]? with
    | none => simp [hs] at hv
    | some s =>
      by_cases hi : h.idx = h'.idx
      · have hg : s.generation = h.gen := by
          by_contra hc; simp [hs, hc] at hv
        have hgne : h'.gen ≠ h.gen := by
          intro hc; exact hne (by cases h; cases h'; simp_all)
        have hlt : h.idx < a.slots.length := lt_length_of_getElem?_eq_some hs
        rw [← hi] at *
        simp [List.getElem?_set, hlt, hs, hg, Ne.symm hgne, ite_self]
      · simp [List.getElem?_set_ne hi]

theorem firstFreeIdx_spec {l : List (ArenaSlot T)} {i : Nat}
    (hf : firstFreeIdx l = some i) : ∃ s, l[i]? = some s ∧ s.value = none := by
  induction l generalizing i with
  | nil => simp [firstFreeIdx] at hf
  | cons s rest ih =>
    by_cases hv : s.value.isNone
    · have hi : i = 0 := by simp [firstFreeIdx, hv] at hf; omega
      subst hi
      exact ⟨s, by simp, Option.isNone_iff_eq_none.mp hv⟩
    · simp only [firstFreeIdx, hv, if_false] at hf
      cases hj : firstFreeIdx rest with
      | none => simp [hj] at hf
      | some j =>
        simp only [hj, Option.map_some'] at hf
        obtain ⟨t, ht, htv⟩ := ih hj
        refine ⟨t, ?_, htv⟩
        rw [← Option.some_inj.mp hf]
        simpa using ht

theorem get_insert_fresh (a : Arena T) (v : T) :
    a.get (a.insert v).1 = none := by
  unfold insert
  cases hf : firstFreeIdx a.slots with
  | some i =>
    obtain ⟨s, hs, hsv⟩ := firstFreeIdx_spec hf
    simp only [get, hs]
    simp [hs, hsv]
  | none =>
    simp only [get]
    have : a.slots[a.slots.length]? = none := by
      simp
    simp [this]

theorem get_insert_same (a : Arena T) (v : T) :
    ((a.insert v).2).get (a.insert v).1 = some v := by
  unfold insert
  cases hf : firstFreeIdx a.slots with
  | some i =>
    obtain ⟨s, hs, hsv⟩ := firstFreeIdx_spec hf
    have hlt : i < a.slots.length := lt_length_of_getElem?_eq_some hs
    simp only [get]
    simp [List.getElem?_set, hlt, hs]
  | none =>
    simp only [get]
    simp [List.getElem?_concat_length]

theorem get_insert_other (a : Arena T) (v : T) (h' : Index)
    (hne : h' ≠ (a.insert v).1) :
    ((a.insert v).2).get h' = a.get h' := by
  unfold insert at hne ⊢
  cases hf : firstFreeIdx a.slots with
  | some i =>
    obtain ⟨s, hs, hsv⟩ := firstFreeIdx_spec hf
    have hlt : i < a.slots.length := lt_length_of_getElem?_eq_some hs
    simp only [hf] at hne
    simp only [get]
    by_cases hi : i = h'.idx
    · have hgne : h'.gen ≠ s.generation := by
        intro hc
        apply hne
        cases h'
        simp_all [hs]
      rw [← hi] at *
      simp [List.getElem?_set, hlt, hs, Ne.symm hgne, hsv]
    · simp [List.getElem?_set_ne hi]
  | none =>
    simp only [hf] at hne
    simp only [get]
    by_cases hi : h'.idx = a.slots.length
    · have hgne : h'.gen ≠ 0 := by
        intro hc
        apply hne
        cases h'
        simp_all
      rw [hi]
      have h1 : a.slots[a.slots.length]? = none := by simp
      simp [List.getElem?_concat_length, h1, Ne.symm hgne]
    · by_cases hlt : h'.idx < a.slots.length
      · simp [List.getElem?_append_left hlt]
      · have h1 : a.slots[h'.idx]? = none := by
          simp [List.getElem?_eq_none_iff]; omega
        have h2 : (a.slots ++ [(⟨0, some v⟩ : ArenaSlot T)])[h'.idx]? = none := by
          simp [List.getElem?_eq_none_iff]; omega
        simp [h1, h2]

end Arena

/-! ## Rigid bodies (`src/dynamics/rigid_body_set.rs`) -/

/-- `BodyStatus` (declared in `dynamics`): governs active-set membership and
wake propagation. -/
inductive BodyStatus where
  | Dynamic
  | Static
  | Kinematic
deriving DecidableEq, Repr

/-- Modelled from the spec: `activation = { energy, threshold, sleeping }`.
`f32` scalars are modelled as rationals. -/
structure RigidBodyActivation where
  energy : ℚ
  threshold : ℚ
  sleeping : Bool
deriving DecidableEq, Repr

/-- Modelled from the spec: the fields of `RigidBody` (declared in
`dynamics/rigid_body.rs`, not part of the three embedded files) that the
core reads or writes.  The linear and angular velocities are modelled as
single rational components since only their zero-ness is observed. -/
structure RigidBody where
  body_status : BodyStatus
  activation : RigidBodyActivation
  linvel : ℚ
  angvel : ℚ
  active_island_id : Nat
  active_set_id : Nat
  active_set_offset : Nat
  active_set_timestamp : Nat
  colliders : List Index
  joint_graph_index : Nat
deriving DecidableEq, Repr

namespace RigidBody

def is_dynamic (rb : RigidBody) : Bool := rb.body_status = BodyStatus.Dynamic

def is_kinematic (rb : RigidBody) : Bool := rb.body_status = BodyStatus.Kinematic

def is_sleeping (rb : RigidBody) : Bool := rb.activation.sleeping

/-- Modelled from the spec: a kinematic body is moving when its velocity is
non-zero. -/
def is_moving (rb : RigidBody) : Bool := rb.linvel ≠ 0 ∨ rb.angvel ≠ 0

/-- Modelled from the spec: `RigidBody::wake_up` — clear the sleeping flag;
if `strong`, bump the energy far above the threshold so the body resists
re-sleeping. -/
def wake_up (rb : RigidBody) (strong : Bool) : RigidBody :=
  { rb with
    activation :=
      { rb.activation with
        sleeping := false,
        energy :=
          if strong then |rb.activation.threshold| * 2 + 1
          else rb.activation.energy } }

/-- Modelled from the spec: `RigidBody::sleep` — zero velocity, clear
energy, mark sleeping. -/
def sleep (rb : RigidBody) : RigidBody :=
  { rb with
    linvel := 0,
    angvel := 0,
    activation := { rb.activation with energy := 0, sleeping := true } }

/-- Modelled from the spec: `RigidBody::reset_internal_references` — reset
cached intra-body links (collider list, joint index). -/
def reset_internal_references (rb : RigidBody) : RigidBody :=
  { rb with colliders := [], joint_graph_index := 0 }

/-- Modelled from the spec: `RigidBody::update_energy` — the external energy
update; parametrized by the new energy value computed from the body. -/
def update_energy (rb : RigidBody) (updE : RigidBody → ℚ) : RigidBody :=
  { rb with activation := { rb.activation with energy := updE rb } }

/-- Modelled from the spec: `RigidBody::add_collider_internal` — register a
collider handle with its parent body. -/
def add_collider_internal (rb : RigidBody) (h : Index) : RigidBody :=
  { rb with colliders := rb.colliders ++ [h] }

/-- Modelled from the spec: `RigidBody::remove_collider_internal` —
unregister a collider handle from its parent body. -/
def remove_collider_internal (rb : RigidBody) (h : Index) : RigidBody :=
  { rb with colliders := rb.colliders.filter (· ≠ h) }

end RigidBody

/-- The state of a `RigidBodySet`.  Rust `Vec`s become lists with push at
the end, so list positions coincide with vector indices.  The activation
channel is modelled by the queue `sent` of pending handles (sender and
receiver ends of the same process-local queue). -/
structure RigidBodySet where
  bodies : Arena RigidBody
  active_dynamic_set : List Index
  active_kinematic_set : List Index
  modified_inactive_set : List Index
  active_islands : List Nat
  active_set_timestamp : Nat
  can_sleep : List Index
  stack : List Index
  sent : List Index
deriving DecidableEq, Repr

namespace RigidBodySet

def new : RigidBodySet :=
  { bodies := Arena.empty
    active_dynamic_set := []
    active_kinematic_set := []
    modified_inactive_set := []
    active_islands := []
    active_set_timestamp := 0
    can_sleep := []
    stack := []
    sent := [] }

def contains (s : RigidBodySet) (handle : Index) : Bool :=
  s.bodies.contains handle

def get (s : RigidBodySet) (handle : Index) : Option RigidBody :=
  s.bodies.get handle

def num_islands (s : RigidBodySet) : Nat :=
  s.active_islands.length - 1

/-- `RigidBodySet::activate` (`rigid_body_set.rs:130`): push the body to the
active vector matching its status unless that vector already addresses it;
`self.bodies[handle]` panics on a dead handle, modelled by `none`. -/
def activate (s : RigidBodySet) (handle : Index) : Option RigidBodySet :=
  match s.bodies.get handle with
  | none => none
  | some rb =>
    match rb.body_status with
    | BodyStatus.Dynamic | BodyStatus.Static =>
      if s.active_dynamic_set[rb.active_set_id]? = some handle then some s
      else
        some { s with
          bodies := s.bodies.set handle
            { rb with active_set_id := s.active_dynamic_set.length },
          active_dynamic_set := s.active_dynamic_set ++ [handle] }
    | BodyStatus.Kinematic =>
      if s.active_kinematic_set[rb.active_set_id]? = some handle then some s
      else
        some { s with
          bodies := s.bodies.set handle
            { rb with active_set_id := s.active_kinematic_set.length },
          active_kinematic_set := s.active_kinematic_set ++ [handle] }

/-- `RigidBodySet::insert` (`rigid_body_set.rs:157`). -/
def insert (s : RigidBodySet) (rb0 : RigidBody) : Index × RigidBodySet :=
  let rb := rb0.reset_internal_references
  let hb := s.bodies.insert rb
  let handle := hb.1
  let s1 := { s with bodies := hb.2 }
  let s2 :=
    if ¬rb.is_sleeping ∧ rb.is_dynamic then
      { s1 with
        bodies := s1.bodies.set handle
          { rb with active_set_id := s1.active_dynamic_set.length },
        active_dynamic_set := s1.active_dynamic_set ++ [handle] }
    else s1
  let s3 :=
    if rb.is_kinematic then
      { s2 with
        bodies := s2.bodies.set handle
          { rb with active_set_id := s2.active_kinematic_set.length },
        active_kinematic_set := s2.active_kinematic_set ++ [handle] }
    else s2
  let s4 :=
    if ¬rb.is_dynamic then
      { s3 with modified_inactive_set := s3.modified_inactive_set ++ [handle] }
    else s3
  (handle, s4)

/-- `RigidBodySet::wake_up` (`rigid_body_set.rs:229`): no-op on a dead
handle or a non-dynamic body. -/
def wake_up (s : RigidBodySet) (handle : Index) (strong : Bool) : RigidBodySet :=
  match s.bodies.get handle with
  | none => s
  | some rb =>
    if rb.is_dynamic then
      let rb1 := rb.wake_up strong
      if s.active_dynamic_set[rb1.active_set_id]? = some handle then
        { s with bodies := s.bodies.set handle rb1 }
      else
        { s with
          bodies := s.bodies.set handle
            { rb1 with active_set_id := s.active_dynamic_set.length },
          active_dynamic_set := s.active_dynamic_set ++ [handle] }
    else s

/-- One step of the `maintain_active_set` drain loop
(`rigid_body_set.rs:436`). -/
def maintainStep (s : RigidBodySet) (handle : Index) : RigidBodySet :=
  match s.bodies.get handle with
  | none => s
  | some rb =>
    if ¬rb.is_sleeping ∧ rb.is_dynamic ∧
        s.active_dynamic_set[rb.active_set_id]? ≠ some handle then
      { s with
        bodies := s.bodies.set handle
          { rb with active_set_id := s.active_dynamic_set.length },
        active_dynamic_set := s.active_dynamic_set ++ [handle] }
    else s

/-- `RigidBodySet::maintain_active_set`: drain the activation channel and
push each live, awake, dynamic, not-yet-addressed body. -/
def maintain_active_set (s : RigidBodySet) : RigidBodySet :=
  s.sent.foldl maintainStep { s with sent := [] }

end RigidBodySet

/-! ## Geometry primitives and the collider set
(`src/geometry/collider_set.rs`; AABB primitives are external to the three
embedded files and are modelled from the spec, over rationals and in the
2D configuration of the crate). -/

/-- Modelled from the spec: a 2D point over rationals (`math::Point`). -/
structure Point2 where
  x : ℚ
  y : ℚ
deriving DecidableEq, Repr

def Point2.coord (p : Point2) (dim : Nat) : ℚ :=
  if dim = 0 then p.x else p.y

/-- Modelled from the spec: an axis-aligned bounding box. -/
structure AABB where
  mins : Point2
  maxs : Point2
deriving DecidableEq, Repr

namespace AABB

def center (a : AABB) : Point2 :=
  ⟨(a.mins.x + a.maxs.x) / 2, (a.mins.y + a.maxs.y) / 2⟩

/-- Modelled from the spec: the reserved invalid AABB, the identity of
`merge`; the `f32` extreme bounds are modelled by a large rational
constant. -/
def new_invalid : AABB :=
  ⟨⟨(2 : ℚ) ^ 100, (2 : ℚ) ^ 100⟩, ⟨-(2 : ℚ) ^ 100, -(2 : ℚ) ^ 100⟩⟩

/-- Modelled from the spec: `AABB::merged` — componentwise min/max hull. -/
def merged (a b : AABB) : AABB :=
  ⟨⟨min a.mins.x b.mins.x, min a.mins.y b.mins.y⟩,
   ⟨max a.maxs.x b.maxs.x, max a.maxs.y b.maxs.y⟩⟩

/-- Modelled from the spec: `BoundingVolume::contains` — `a` contains `b`
componentwise. -/
def contains (a b : AABB) : Bool :=
  a.mins.x ≤ b.mins.x ∧ a.mins.y ≤ b.mins.y ∧
  b.maxs.x ≤ a.maxs.x ∧ b.maxs.y ≤ a.maxs.y

end AABB

/-- The fields of `Collider` the embedded files read: its parent body, its
broad-phase proxy slot, and (modelled from the spec) the current AABB that
the `compute_aabb()` observer reports. -/
structure Collider where
  parent : Index
  proxy_index : Nat
  aabb : AABB
deriving DecidableEq, Repr

def Collider.compute_aabb (c : Collider) : AABB := c.aabb

/-- `RemovedCollider` (`collider_set.rs:12`). -/
structure RemovedCollider where
  handle : Index
  proxy_index : Nat
deriving DecidableEq, Repr

/-- `ColliderSet` (`collider_set.rs:20`): the pub/sub of removal messages is
modelled from the spec as the list of messages in publication order
(`publish` appends; consumers are external). -/
structure ColliderSet where
  removed_colliders : List RemovedCollider
  colliders : Arena Collider
deriving DecidableEq, Repr

namespace ColliderSet

def new : ColliderSet := ⟨[], Arena.empty⟩

def contains (cs : ColliderSet) (handle : Index) : Bool :=
  cs.colliders.contains handle

def get (cs : ColliderSet) (handle : Index) : Option Collider :=
  cs.colliders.get handle

/-- `ColliderSet::remove` (`collider_set.rs:79`): free the slot; if the
parent body still exists, unregister the collider from it and strong-wake
it; publish exactly one `RemovedCollider` message.  Returns `None` and
changes nothing when the handle is not contained. -/
def remove (cs : ColliderSet) (handle : Index) (bodies : RigidBodySet) :
    Option Collider × ColliderSet × RigidBodySet :=
  match cs.colliders.remove handle with
  | (none, _) => (none, cs, bodies)
  | (some collider, arena1) =>
    let cs1 : ColliderSet := { cs with colliders := arena1 }
    let bodies1 :=
      match bodies.bodies.get collider.parent with
      | some parent =>
        let b0 : RigidBodySet :=
          { bodies with
            bodies := bodies.bodies.set collider.parent
              (parent.remove_collider_internal handle) }
        b0.wake_up collider.parent true
      | none => bodies
    let cs2 : ColliderSet :=
      { cs1 with
        removed_colliders :=
          cs1.removed_colliders ++ [⟨handle, collider.proxy_index⟩] }
    (some collider, cs2, bodies1)

end ColliderSet

namespace RigidBodySet

/-- `Vec::swap_remove(i)`: replace position `i` with the last element and
pop the last element. -/
def swapRemove (l : List Index) (i : Nat) : List Index :=
  match l.getLast? with
  | none => l
  | some last => (l.set i last).dropLast

/-- The per-active-vector part of `RigidBodySet::remove`
(`rigid_body_set.rs:196`): swap-remove the handle when the vector addresses
it and fix the replacement body (indexing the replacement panics on a dead
handle, modelled by `none`). -/
def removeFromActiveSet (bodies : Arena RigidBody) (v : List Index)
    (handle : Index) (id : Nat) : Option (Arena RigidBody × List Index) :=
  if v[id]? = some handle then
    let v1 := swapRemove v id
    match v1[id]? with
    | some replacement =>
      match bodies.get replacement with
      | some rbr =>
        some (bodies.set replacement { rbr with active_set_id := id }, v1)
      | none => none
    | none => some (bodies, v1)
  else some (bodies, v)

/-- `RigidBodySet::remove` (`rigid_body_set.rs:184`).  The effect of the
external `JointSet::remove_rigid_body(joint_graph_index, &mut bodies)` on
the body set is modelled from the spec as strong-waking the bodies formerly
jointed to the removed one, supplied by the `jointNeighbors` map. -/
def remove (s : RigidBodySet) (handle : Index) (cs : ColliderSet)
    (jointNeighbors : Nat → List Index) :
    Option (Option RigidBody × RigidBodySet × ColliderSet) :=
  match s.bodies.remove handle with
  | (none, _) => some (none, s, cs)
  | (some rb, arena1) =>
    let s1 : RigidBodySet := { s with bodies := arena1 }
    match removeFromActiveSet s1.bodies s1.active_kinematic_set handle
        rb.active_set_id with
    | none => none
    | some p2 =>
      let s2 : RigidBodySet :=
        { s1 with bodies := p2.1, active_kinematic_set := p2.2 }
      match removeFromActiveSet s2.bodies s2.active_dynamic_set handle
          rb.active_set_id with
      | none => none
      | some p3 =>
        let s3 : RigidBodySet :=
          { s2 with bodies := p3.1, active_dynamic_set := p3.2 }
        let csS := rb.colliders.foldl
          (fun (p : ColliderSet × RigidBodySet) c =>
            let r := p.1.remove c p.2
            (r.2.1, r.2.2)) (cs, s3)
        let s5 := (jointNeighbors rb.joint_graph_index).foldl
          (fun st h => st.wake_up h true) csS.2
        some (some rb, s5, csS.1)

end RigidBodySet

/-! ## `update_active_set_with_contacts` (`rigid_body_set.rs:452`)

External collaborators are parameters: the narrow phase is the
`contacts_with` map, the joint graph is the `joint_graph` map of
interaction edges, and the external energy update is the `updE` map.  The
`stack` workspace `Vec` is represented with its top at the head of the
list (Rust pushes and pops at the end of the `Vec`); the active vectors
and `can_sleep` keep pushes at the end so indices coincide. -/

/-- `ContactManifold` as the core observes it. -/
structure ContactManifold where
  num_active_contacts : Nat
deriving DecidableEq, Repr

/-- `ContactPair` as the core observes it. -/
structure ContactPair where
  manifolds : List ContactManifold
deriving DecidableEq, Repr

/-- Modelled from the spec: `crate::utils::other_handle` — recover the
member of a pair that is not the given handle. -/
def other_handle (pair : Index × Index) (h : Index) : Index :=
  if pair.1 = h then pair.2 else pair.1

namespace RigidBodySet

/-- `push_contacting_colliders` (`rigid_body_set.rs:491`): for every
collider of the body and every contact pair with at least one active
contact point, push the other collider's parent (returned in Rust push
order).  `colliders[other]` panics on a dead handle, modelled by `none`. -/
def push_contacting_colliders (rb : RigidBody) (cs : ColliderSet)
    (contacts_with : Index → Option (List (Index × Index × ContactPair))) :
    Option (List Index) :=
  rb.colliders.foldlM
    (fun acc ch =>
      match contacts_with ch with
      | none => some acc
      | some contacts =>
        contacts.foldlM
          (fun acc2 inter =>
            if inter.2.2.manifolds.any (fun m => 0 < m.num_active_contacts) then
              match cs.get (other_handle (inter.1, inter.2.1) ch) with
              | some other_collider => some (acc2 ++ [other_collider.parent])
              | none => none
            else some acc2)
          acc)
    []

/-- One iteration of the candidate-split drain
(`rigid_body_set.rs:475`). -/
def drainStep (updE : RigidBody → ℚ) (st : RigidBodySet) (h : Index) :
    Option RigidBodySet :=
  match st.bodies.get h with
  | none => none
  | some rb =>
    let rb1 := rb.update_energy updE
    if rb1.activation.energy ≤ rb1.activation.threshold then
      some { st with
        bodies := st.bodies.set h
          { rb1 with activation := { rb1.activation with sleeping := true } },
        can_sleep := st.can_sleep ++ [h] }
    else
      some { st with bodies := st.bodies.set h rb1, stack := h :: st.stack }

/-- One iteration of the kinematic seeding loop
(`rigid_body_set.rs:518`). -/
def kinStep (cs : ColliderSet)
    (contacts_with : Index → Option (List (Index × Index × ContactPair)))
    (st : RigidBodySet) (h : Index) : Option RigidBodySet :=
  match st.bodies.get h with
  | none => none
  | some rb =>
    if ¬rb.is_moving then some st
    else
      match push_contacting_colliders rb cs contacts_with with
      | none => none
      | some pushes => some { st with stack := pushes.reverse ++ st.stack }

/-- The graph-traversal loop (`rigid_body_set.rs:541`), by fuel; `none`
models both a panic inside the loop and fuel exhaustion. -/
def traverseLoop (cs : ColliderSet)
    (contacts_with : Index → Option (List (Index × Index × ContactPair)))
    (joint_graph : Nat → List (Index × Index)) (min_island_size : Nat) :
    Nat → RigidBodySet → Nat → Option RigidBodySet
  | 0, st, _ =>
    match st.stack with
    | [] => some st
    | _ :: _ => none
  | fuel + 1, st, island_marker =>
    match st.stack with
    | [] => some st
    | handle :: rest =>
      let st0 : RigidBodySet := { st with stack := rest }
      match st0.bodies.get handle with
      | none => none
      | some rb =>
        if rb.active_set_timestamp = st0.active_set_timestamp ∨ ¬rb.is_dynamic
        then traverseLoop cs contacts_with joint_graph min_island_size fuel
          st0 island_marker
        else
          match
            (if rest.length < island_marker then
              match st0.active_islands.getLast? with
              | none => none
              | some lastB =>
                if min_island_size ≤ st0.active_dynamic_set.length - lastB then
                  some (st0.active_islands ++ [st0.active_dynamic_set.length],
                    rest.length)
                else some (st0.active_islands, rest.length)
            else some (st0.active_islands, island_marker) :
              Option (List Nat × Nat))
          with
          | none => none
          | some im =>
            match im.1.getLast? with
            | none => none
            | some islandStart =>
              let rb2 : RigidBody :=
                { rb.wake_up false with
                  active_island_id := im.1.length - 1,
                  active_set_id := st0.active_dynamic_set.length,
                  active_set_offset :=
                    st0.active_dynamic_set.length - islandStart,
                  active_set_timestamp := st0.active_set_timestamp }
              match push_contacting_colliders rb2 cs contacts_with with
              | none => none
              | some contactPushes =>
                let jointPushes :=
                  (joint_graph rb.joint_graph_index).map
                    (fun e => other_handle e handle)
                let st1 : RigidBodySet :=
                  { st0 with
                    bodies := st0.bodies.set handle rb2,
                    active_dynamic_set := st0.active_dynamic_set ++ [handle],
                    active_islands := im.1,
                    stack := (contactPushes ++ jointPushes).reverse ++ rest }
                traverseLoop cs contacts_with joint_graph min_island_size fuel
                  st1 im.2

/-- One iteration of the commit-sleep loop (`rigid_body_set.rs:587`). -/
def commitStep (st : RigidBodySet) (h : Index) : Option RigidBodySet :=
  match st.bodies.get h with
  | none => none
  | some b =>
    if b.activation.sleeping then
      some { st with bodies := st.bodies.set h b.sleep }
    else some st

/-- `RigidBodySet::update_active_set_with_contacts`
(`rigid_body_set.rs:452`); `none` models panics (including the
`min_island_size` assertion) and traversal fuel exhaustion. -/
def update_active_set_with_contacts (s : RigidBodySet) (cs : ColliderSet)
    (contacts_with : Index → Option (List (Index × Index × ContactPair)))
    (joint_graph : Nat → List (Index × Index)) (min_island_size : Nat)
    (updE : RigidBody → ℚ) (fuel : Nat) : Option RigidBodySet :=
  if min_island_size = 0 then none
  else
    let s0 : RigidBodySet :=
      { s with
        active_set_timestamp := s.active_set_timestamp + 1,
        stack := [], can_sleep := [] }
    let drained := s0.active_dynamic_set.reverse
    let s1 : RigidBodySet := { s0 with active_dynamic_set := [] }
    match drained.foldlM (drainStep updE) s1 with
    | none => none
    | some s2 =>
      match s2.active_kinematic_set.foldlM (kinStep cs contacts_with) s2 with
      | none => none
      | some s3 =>
        let s4 : RigidBodySet := { s3 with active_islands := [0] }
        let island_marker := max s4.stack.length 1 - 1
        match traverseLoop cs contacts_with joint_graph min_island_size fuel
            s4 island_marker with
        | none => none
        | some s5 =>
          let s6 : RigidBodySet :=
            { s5 with
              active_islands :=
                s5.active_islands ++ [s5.active_dynamic_set.length] }
          s6.can_sleep.foldlM commitStep s6

end RigidBodySet

/-! ## The scoped mutable body view (`rigid_body_set.rs:11`) -/

/-- `RigidBodyMut` (`rigid_body_set.rs:11`): the scoped mutable view records
the sleep state observed when the view was created; the `&mut RigidBody`
and the channel sender are threaded explicitly. -/
structure RigidBodyMut where
  was_sleeping : Bool
  handle : Index
deriving DecidableEq, Repr

/-- `RigidBodyMut::new` (`rigid_body_set.rs:19`). -/
def RigidBodyMut.mk_new (handle : Index) (rb : RigidBody) : RigidBodyMut :=
  { was_sleeping := rb.is_sleeping, handle := handle }

/-- `RigidBodyMut::drop` (`rigid_body_set.rs:46`): on release, send the
handle on the activation channel iff the body was sleeping on entry and is
not sleeping now.  `rb` is the body at the moment of release; the result is
the channel queue after the drop. -/
def RigidBodyMut.drop (v : RigidBodyMut) (rb : RigidBody) (sent : List Index) :
    List Index :=
  if v.was_sleeping ∧ ¬rb.is_sleeping then sent ++ [v.handle] else sent

/-- `RigidBodySet::get_mut` (`rigid_body_set.rs:278`): wraps the body in a
scoped view. -/
def RigidBodySet.get_mut (s : RigidBodySet) (handle : Index) :
    Option RigidBodyMut :=
  (s.bodies.get handle).map (RigidBodyMut.mk_new handle)

/-- `RigidBodySet::get_unknown_gen_mut` (`rigid_body_set.rs:265`): looks the
slot up by bare index and wraps the body in a scoped view. -/
def RigidBodySet.get_unknown_gen_mut (s : RigidBodySet) (i : Nat) :
    Option RigidBodyMut :=
  match s.bodies.slots[i]? with
  | some slot =>
    match slot.value with
    | some rb => some (RigidBodyMut.mk_new ⟨i, slot.generation⟩ rb)
    | none => none
  | none => none

/-! ## The SIMD bounding-volume tree (`src/geometry/wquadtree.rs`)

`u32` indices become `Nat` with the explicit sentinel `u32Max`; the 4-lane
`WAABB` pack becomes a function `Fin 4 → AABB`; the SIMD intersection
tests and the dilation (external to the embedded file) are parameters. -/

def u32Max : Nat := 4294967295

/-- `NodeIndex` (`wquadtree.rs:39`). -/
structure NodeIndex where
  index : Nat
  lane : Nat
deriving DecidableEq, Repr

def NodeIndex.invalid : NodeIndex := ⟨u32Max, 0⟩

/-- The 4-lane AABB pack (`WAABB`), lane-indexed. -/
def WAABB := Fin 4 → AABB

instance : DecidableEq WAABB := by
  unfold WAABB
  infer_instance

/-- Modelled from the spec: `WAABB::new_invalid` — every lane invalid. -/
def WAABB.new_invalid : WAABB := fun _ => AABB.new_invalid

/-- Modelled from the spec: `WAABB::to_merged_aabb` — hull of the four
lanes. -/
def WAABB.to_merged_aabb (w : WAABB) : AABB :=
  (((w 0).merged (w 1)).merged (w 2)).merged (w 3)

/-- Modelled from the spec: `WAABB::contains(..).all()` — lane-wise
containment, all four lanes. -/
def WAABB.contains_all (w1 w2 : WAABB) : Bool :=
  (List.finRange 4).all fun i => (w1 i).contains (w2 i)

/-- `WQuadtreeNode` (`wquadtree.rs:59`). -/
structure WQuadtreeNode where
  waabb : WAABB
  children : Fin 4 → Nat
  parent : NodeIndex
  leaf : Bool
  dirty : Bool
deriving DecidableEq

/-- `WQuadtreeProxy` (`wquadtree.rs:71`). -/
structure WQuadtreeProxy (T : Type) where
  node : NodeIndex
  data : T
deriving DecidableEq

/-- `WQuadtreeProxy::invalid` (`wquadtree.rs:77`), with the `IndexedData`
default value passed explicitly. -/
def WQuadtreeProxy.invalid (dflt : T) : WQuadtreeProxy T :=
  ⟨NodeIndex.invalid, dflt⟩

/-- `WQuadtree` (`wquadtree.rs:87`); the `VecDeque` of dirty nodes has its
front at the head of the list (`push_back` appends). -/
structure WQuadtree (T : Type) where
  nodes : List WQuadtreeNode
  dirty_nodes : List Nat
  proxies : List (WQuadtreeProxy T)
deriving DecidableEq

namespace WQuadtree

def mk_new : WQuadtree T := ⟨[], [], []⟩

/-- `WQuadtree::pre_update` (`wquadtree.rs:95`): mark the proxy's leaf node
dirty and enqueue it if it was clean; indexing a missing proxy or node
panics, modelled by `none`. -/
def pre_update (qt : WQuadtree T) (index : T → Nat) (data : T) :
    Option (WQuadtree T) :=
  match qt.proxies[index data]? with
  | none => none
  | some proxy =>
    let node_id := proxy.node.index
    match qt.nodes[node_id]? with
    | none => none
    | some node =>
      if ¬node.dirty then
        some { qt with
          nodes := qt.nodes.set node_id { node with dirty := true },
          dirty_nodes := qt.dirty_nodes ++ [node_id] }
      else some qt

/-- The body of one iteration of `WQuadtree::update` (`wquadtree.rs:109`),
after the pop: recompute the four lane AABBs (leaf lanes through the
collider `compute_aabb` observer, modelled by the `colliders` map, whose
`none` is the `colliders[proxy.data]` panic), compare with the stored pack,
replace-and-enqueue-parent when not contained, clear the dirty flag. -/
def update_iter (colliders : T → Option AABB) (dilate : WAABB → WAABB)
    (qt : WQuadtree T) (id : Nat) : Option (WQuadtree T) :=
  match qt.nodes[id]? with
  | none => some qt
  | some node =>
    let lane : Fin 4 → Option AABB := fun i =>
      if node.leaf then
        match qt.proxies[node.children i]? with
        | some proxy =>
          match colliders proxy.data with
          | some aabb => some aabb
          | none => none
        | none => some AABB.new_invalid
      else
        match qt.nodes[node.children i]? with
        | some child => some (WAABB.to_merged_aabb child.waabb)
        | none => some AABB.new_invalid
    match lane 0, lane 1, lane 2, lane 3 with
    | some a0, some a1, some a2, some a3 =>
      let new_waabb : WAABB := ![a0, a1, a2, a3]
      if node.waabb.contains_all new_waabb then
        some { qt with nodes := qt.nodes.set id { node with dirty := false } }
      else
        some { qt with
          nodes := qt.nodes.set id
            { node with waabb := dilate new_waabb, dirty := false },
          dirty_nodes := qt.dirty_nodes ++ [node.parent.index] }
    | _, _, _, _ => none

/-- One iteration of `WQuadtree::update`, including the pop from the dirty
queue; when the queue is empty the loop has stopped. -/
def update_step (colliders : T → Option AABB) (dilate : WAABB → WAABB)
    (qt : WQuadtree T) : Option (WQuadtree T) :=
  match qt.dirty_nodes with
  | [] => some qt
  | id :: rest => update_iter colliders dilate { qt with dirty_nodes := rest } id

/-- `WQuadtree::update` (`wquadtree.rs:105`): drain the dirty queue, by
fuel. -/
def update (colliders : T → Option AABB) (dilate : WAABB → WAABB) :
    Nat → WQuadtree T → Option (WQuadtree T)
  | 0, qt => match qt.dirty_nodes with | [] => some qt | _ :: _ => none
  | fuel + 1, qt =>
    match qt.dirty_nodes with
    | [] => some qt
    | id :: rest =>
      match update_iter colliders dilate { qt with dirty_nodes := rest } id with
      | none => none
      | some qt1 => update colliders dilate fuel qt1

/-- The traversal loop of `WQuadtree::intersect_aabb` (`wquadtree.rs:323`),
by fuel, with the SIMD lane test as the parameter `hit`.  The stack stores
its top at the head.  Indexing a popped node out of bounds panics,
modelled by `none`.  The internal-node push guard is the source's
`children[ii] as usize <= self.nodes.len()`. -/
def intersect_aabb_loop (hit : WAABB → AABB → Fin 4 → Bool)
    (qt : WQuadtree T) (aabb : AABB) :
    Nat → List Nat → List T → Option (List T)
  | 0, stack, out => match stack with | [] => some out | _ :: _ => none
  | fuel + 1, stack, out =>
    match stack with
    | [] => some out
    | inode :: rest =>
      match qt.nodes[inode]? with
      | none => none
      | some node =>
        let emitted := (List.finRange 4).foldl
          (fun acc ii =>
            if hit node.waabb aabb ii ∧ node.leaf then
              match qt.proxies[node.children ii]? with
              | some proxy => acc ++ [proxy.data]
              | none => acc
            else acc) []
        let pushed := (List.finRange 4).foldl
          (fun acc ii =>
            if hit node.waabb aabb ii ∧ ¬node.leaf ∧
                node.children ii ≤ qt.nodes.length then
              acc ++ [node.children ii]
            else acc) []
        intersect_aabb_loop hit qt aabb fuel
          (pushed.reverse ++ rest) (out ++ emitted)

/-- `WQuadtree::intersect_aabb` (`wquadtree.rs:315`). -/
def intersect_aabb (hit : WAABB → AABB → Fin 4 → Bool) (qt : WQuadtree T)
    (aabb : AABB) (fuel : Nat) : Option (List T) :=
  if qt.nodes.isEmpty then some []
  else intersect_aabb_loop hit qt aabb fuel [0] []

/-- Modelled from the spec: a packed ray, kept abstract (the query only
splats it and hands it to the SIMD test). -/
structure Ray where
  origin : Point2
  dir : Point2
deriving DecidableEq, Repr

/-- The traversal loop of `WQuadtree::cast_ray` (`wquadtree.rs:358`), by
fuel, with the SIMD lane test as the parameter `rayHit`.  Same stack
discipline and the same `<=` internal-node push guard as
`intersect_aabb_loop`. -/
def cast_ray_loop (rayHit : WAABB → Ray → ℚ → Fin 4 → Bool)
    (qt : WQuadtree T) (ray : Ray) (max_toi : ℚ) :
    Nat → List Nat → List T → Option (List T)
  | 0, stack, out => match stack with | [] => some out | _ :: _ => none
  | fuel + 1, stack, out =>
    match stack with
    | [] => some out
    | inode :: rest =>
      match qt.nodes[inode]? with
      | none => none
      | some node =>
        let emitted := (List.finRange 4).foldl
          (fun acc ii =>
            if rayHit node.waabb ray max_toi ii ∧ node.leaf then
              match qt.proxies[node.children ii]? with
              | some proxy => acc ++ [proxy.data]
              | none => acc
            else acc) []
        let pushed := (List.finRange 4).foldl
          (fun acc ii =>
            if rayHit node.waabb ray max_toi ii ∧ ¬node.leaf ∧
                node.children ii ≤ qt.nodes.length then
              acc ++ [node.children ii]
            else acc) []
        cast_ray_loop rayHit qt ray max_toi fuel
          (pushed.reverse ++ rest) (out ++ emitted)

/-- `WQuadtree::cast_ray` (`wquadtree.rs:349`). -/
def cast_ray (rayHit : WAABB → Ray → ℚ → Fin 4 → Bool) (qt : WQuadtree T)
    (ray : Ray) (max_toi : ℚ) (fuel : Nat) : Option (List T) :=
  if qt.nodes.isEmpty then some []
  else cast_ray_loop rayHit qt ray max_toi fuel [0] []

end WQuadtree

/-! ## The bulk build (`wquadtree.rs:151` and `wquadtree.rs:535`)

The slice of AABBs is modelled as a total map from proxy index to AABB
(`split_indices_wrt_dim` and the build only ever index it at positions of
the index list); the centroid comparisons are exact over `ℚ`. -/

/-- `<[usize]>::swap(i, j)`. -/
def listSwap (l : List Nat) (i j : Nat) : List Nat :=
  (l.set i (l.getD j 0)).set j (l.getD i 0)

/-- The in-place partition loop of `split_indices_wrt_dim`
(`wquadtree.rs:547`): it runs exactly `indices.len()` times, moving
elements whose centroid exceeds the split point on the chosen axis to the
tail; returns the final array and `icurr`. -/
def split_loop (aabbs : Nat → AABB) (split_point : Point2) (dim : Nat) :
    Nat → List Nat → Nat → Nat → List Nat × Nat
  | 0, arr, icurr, _ => (arr, icurr)
  | k + 1, arr, icurr, ilast =>
    let i := arr.getD icurr 0
    if (aabbs i).center.coord dim > split_point.coord dim then
      split_loop aabbs split_point dim k (listSwap arr icurr (ilast - 1))
        icurr (ilast - 1)
    else
      split_loop aabbs split_point dim k arr (icurr + 1) ilast

/-- `split_indices_wrt_dim` (`wquadtree.rs:535`): partition, then split at
`icurr`, falling back to the middle index when one side would be empty. -/
def split_indices_wrt_dim (indices : List Nat) (aabbs : Nat → AABB)
    (split_point : Point2) (dim : Nat) : List Nat × List Nat :=
  let r := split_loop aabbs split_point dim indices.length indices 0
    indices.length
  if r.2 = 0 ∨ r.2 = indices.length then
    let half := indices.length / 2
    (r.1.take half, r.1.drop half)
  else (r.1.take r.2, r.1.drop r.2)

theorem listSwap_perm (l : List Nat) (i j : Nat) (hi : i < l.length)
    (hj : j < l.length) : (listSwap l i j).Perm l := by
  unfold listSwap
  by_cases hij : i = j
  · subst hij
    have hset : l.set i (l.getD i 0) = l := by
      apply List.ext_getElem?
      intro k
      rw [List.getElem?_set]
      split
      · rename_i hik
        subst hik
        simp [hi, List.getD_eq_getElem, List.getElem?_eq_getElem hi]
      · rfl
    rw [List.set_set, hset]
  · rw [List.perm_iff_count]
    intro c
    have hj1 : j < (l.set i (l.getD j 0)).length := by simpa using hj
    rw [List.count_set _ _ _ _ hj1, List.count_set _ _ _ _ hi]
    have hgj : (l.set i (l.getD j 0))[j] = l[j] := by
      rw [List.getElem_set_ne hij]
    have hdj : l.getD j 0 = l[j] := List.getD_eq_getElem l 0 hj
    have hdi : l.getD i 0 = l[i] := List.getD_eq_getElem l 0 hi
    rw [hgj, hdj, hdi]
    by_cases hbc : l[i] = c
    · have hmem : c ∈ l := hbc ▸ List.getElem_mem hi
      have hcount : 1 ≤ l.count c := List.count_pos_iff.mpr hmem
      by_cases hac : l[j] = c <;>
        simp [hbc, hac, beq_iff_eq] <;> omega
    · by_cases hac : l[j] = c <;>
        simp [hbc, hac, beq_iff_eq]

theorem split_loop_spec (aabbs : Nat → AABB) (split_point : Point2)
    (dim : Nat) :
    ∀ k arr icurr ilast, icurr ≤ ilast → ilast ≤ arr.length →
      icurr + (arr.length - ilast) + k = arr.length →
      (split_loop aabbs split_point dim k arr icurr ilast).1.Perm arr ∧
      (split_loop aabbs split_point dim k arr icurr ilast).1.length
        = arr.length ∧
      (split_loop aabbs split_point dim k arr icurr ilast).2 ≤ arr.length := by
  intro k
  induction k with
  | zero =>
    intro arr icurr ilast h1 h2 h3
    refine ⟨?_, ?_, ?_⟩
    · simp only [split_loop]
      exact List.Perm.refl _
    · simp only [split_loop]
    · simp only [split_loop]
      omega
  | succ n ih =>
    intro arr icurr ilast h1 h2 h3
    have hlt : icurr < ilast := by omega
    have hi : icurr < arr.length := by omega
    have hl1 : ilast - 1 < arr.length := by omega
    unfold split_loop
    by_cases hcmp :
        (aabbs (arr.getD icurr 0)).center.coord dim > split_point.coord dim
    · simp only [hcmp, if_true]
      have hlen : (listSwap arr icurr (ilast - 1)).length = arr.length := by
        unfold listSwap; simp
      have hrec := ih (listSwap arr icurr (ilast - 1)) icurr (ilast - 1)
        (by omega) (by omega) (by rw [hlen]; omega)
      refine ⟨hrec.1.trans (listSwap_perm arr icurr (ilast - 1) hi hl1),
        ?_, ?_⟩
      · rw [hrec.2.1, hlen]
      · rw [← hlen]; exact hrec.2.2
    · simp only [hcmp, if_false]
      exact ih arr (icurr + 1) ilast (by omega) h2 (by omega)

theorem split_indices_parts (indices : List Nat) (aabbs : Nat → AABB)
    (split_point : Point2) (dim : Nat) :
    ((split_indices_wrt_dim indices aabbs split_point dim).1 ++
      (split_indices_wrt_dim indices aabbs split_point dim).2).Perm indices ∧
    (split_indices_wrt_dim indices aabbs split_point dim).1.length +
      (split_indices_wrt_dim indices aabbs split_point dim).2.length
      = indices.length := by
  have hloop := split_loop_spec aabbs split_point dim indices.length indices 0
    indices.length (by omega) (by omega) (by omega)
  set r := split_loop aabbs split_point dim indices.length indices 0
    indices.length with hr
  have hdef : split_indices_wrt_dim indices aabbs split_point dim =
      (if r.2 = 0 ∨ r.2 = indices.length then
        (r.1.take (indices.length / 2), r.1.drop (indices.length / 2))
      else (r.1.take r.2, r.1.drop r.2)) := rfl
  rw [hdef]
  split
  · constructor
    · rw [List.take_append_drop]
      exact hloop.1
    · have := hloop.2.1
      simp [List.length_take, List.length_drop, this]
      omega
  · constructor
    · rw [List.take_append_drop]
      exact hloop.1
    · have := hloop.2.1
      simp [List.length_take, List.length_drop, this]
      omega

theorem split_indices_nonempty (indices : List Nat) (aabbs : Nat → AABB)
    (split_point : Point2) (dim : Nat) (h2 : 2 ≤ indices.length) :
    (split_indices_wrt_dim indices aabbs split_point dim).1 ≠ [] ∧
    (split_indices_wrt_dim indices aabbs split_point dim).2 ≠ [] := by
  have hloop := split_loop_spec aabbs split_point dim indices.length indices 0
    indices.length (by omega) (by omega) (by omega)
  set r := split_loop aabbs split_point dim indices.length indices 0
    indices.length with hr
  have hdef : split_indices_wrt_dim indices aabbs split_point dim =
      (if r.2 = 0 ∨ r.2 = indices.length then
        (r.1.take (indices.length / 2), r.1.drop (indices.length / 2))
      else (r.1.take r.2, r.1.drop r.2)) := rfl
  have hlen : r.1.length = indices.length := hloop.2.1
  have hic : r.2 ≤ indices.length := hloop.2.2
  rw [hdef]
  split
  · constructor
    · intro hc
      have hl0 : (r.1.take (indices.length / 2)).length = 0 := by
        rw [show r.1.take (indices.length / 2) = [] from hc]; rfl
      rw [List.length_take, hlen] at hl0
      omega
    · intro hc
      have hl0 : (r.1.drop (indices.length / 2)).length = 0 := by
        rw [show r.1.drop (indices.length / 2) = [] from hc]; rfl
      rw [List.length_drop, hlen] at hl0
      omega
  · rename_i hcond
    push_neg at hcond
    constructor
    · intro hc
      have hl0 : (r.1.take r.2).length = 0 := by
        rw [show r.1.take r.2 = [] from hc]; rfl
      rw [List.length_take, hlen] at hl0
      omega
    · intro hc
      have hl0 : (r.1.drop r.2).length = 0 := by
        rw [show r.1.drop r.2 = [] from hc]; rfl
      rw [List.length_drop, hlen] at hl0
      omega

theorem split_fst_length_lt (indices : List Nat) (aabbs : Nat → AABB)
    (split_point : Point2) (dim : Nat) (h2 : 2 ≤ indices.length) :
    (split_indices_wrt_dim indices aabbs split_point dim).1.length
      < indices.length := by
  have hp := (split_indices_parts indices aabbs split_point dim).2
  have hn := (split_indices_nonempty indices aabbs split_point dim h2).2
  have : 0 < (split_indices_wrt_dim indices aabbs split_point dim).2.length :=
    List.length_pos.mpr hn
  omega

theorem split_snd_length_lt (indices : List Nat) (aabbs : Nat → AABB)
    (split_point : Point2) (dim : Nat) (h2 : 2 ≤ indices.length) :
    (split_indices_wrt_dim indices aabbs split_point dim).2.length
      < indices.length := by
  have hp := (split_indices_parts indices aabbs split_point dim).2
  have hn := (split_indices_nonempty indices aabbs split_point dim h2).1
  have : 0 < (split_indices_wrt_dim indices aabbs split_point dim).1.length :=
    List.length_pos.mpr hn
  omega

theorem split_fst_length_le (indices : List Nat) (aabbs : Nat → AABB)
    (split_point : Point2) (dim : Nat) :
    (split_indices_wrt_dim indices aabbs split_point dim).1.length
      ≤ indices.length := by
  have hp := (split_indices_parts indices aabbs split_point dim).2
  omega

theorem split_snd_length_le (indices : List Nat) (aabbs : Nat → AABB)
    (split_point : Point2) (dim : Nat) :
    (split_indices_wrt_dim indices aabbs split_point dim).2.length
      ≤ indices.length := by
  have hp := (split_indices_parts indices aabbs split_point dim).2
  omega

namespace WQuadtree

/-- `WQuadtree::do_recurse_build` (`wquadtree.rs:196`), in the 2D
configuration of the crate (`subdiv_dims = [0, 1]`, no variance
computation).  Terminates because both halves of the first split are
non-empty (so strictly shorter than the input) and the second-level
splits never grow their input. -/
def do_recurse_build (aabbs : Nat → AABB) (dilate : WAABB → WAABB)
    (qt : WQuadtree T) (indices : List Nat) (parent : NodeIndex) :
    WQuadtree T × Nat × AABB :=
  if _hle : indices.length ≤ 4 then
    let my_id := qt.nodes.length
    let my_aabb := indices.foldl
      (fun acc id => acc.merged (aabbs id)) AABB.new_invalid
    let leaf_aabbs : Fin 4 → AABB := fun k =>
      match indices[k.val]? with
      | some id => aabbs id
      | none => AABB.new_invalid
    let proxy_ids : Fin 4 → Nat := fun k =>
      match indices[k.val]? with
      | some id => id
      | none => u32Max
    let proxies1 := indices.enum.foldl
      (fun ps ki =>
        ps.modify (fun p => { p with node := ⟨my_id, ki.1⟩ }) ki.2)
      qt.proxies
    let node : WQuadtreeNode :=
      { waabb := dilate leaf_aabbs, children := proxy_ids, parent := parent,
        leaf := true, dirty := false }
    ({ qt with proxies := proxies1, nodes := qt.nodes ++ [node] },
      my_id, my_aabb)
  else
    let denom : ℚ := 1 / (indices.length : ℚ)
    let center : Point2 := indices.foldl
      (fun (acc : Point2) i =>
        ⟨acc.x + (aabbs i).center.x * denom,
         acc.y + (aabbs i).center.y * denom⟩)
      ⟨0, 0⟩
    let lr := split_indices_wrt_dim indices aabbs center 0
    let lbt := split_indices_wrt_dim lr.1 aabbs center 1
    let rbt := split_indices_wrt_dim lr.2 aabbs center 1
    let id := qt.nodes.length
    let qt1 : WQuadtree T :=
      { qt with
        nodes := qt.nodes ++
          [{ waabb := WAABB.new_invalid, children := fun _ => 0,
             parent := parent, leaf := false, dirty := false }] }
    let ra := do_recurse_build aabbs dilate qt1 lbt.1 ⟨id, 0⟩
    let rb := do_recurse_build aabbs dilate ra.1 lbt.2 ⟨id, 1⟩
    let rc := do_recurse_build aabbs dilate rb.1 rbt.1 ⟨id, 2⟩
    let rd := do_recurse_build aabbs dilate rc.1 rbt.2 ⟨id, 3⟩
    let qt5 : WQuadtree T :=
      { rd.1 with
        nodes := rd.1.nodes.modify
          (fun n =>
            { n with
              children := ![ra.2.1, rb.2.1, rc.2.1, rd.2.1],
              waabb := dilate ![ra.2.2, rb.2.2, rc.2.2, rd.2.2] })
          id }
    (qt5, id, ((ra.2.2.merged rb.2.2).merged rc.2.2).merged rd.2.2)
termination_by indices.length
decreasing_by
  · calc (split_indices_wrt_dim
        (split_indices_wrt_dim indices aabbs center 0).1 aabbs center 1).1.length
        ≤ (split_indices_wrt_dim indices aabbs center 0).1.length :=
          split_fst_length_le _ _ _ _
      _ < indices.length := split_fst_length_lt _ _ _ _ (by omega)
  · calc (split_indices_wrt_dim
        (split_indices_wrt_dim indices aabbs center 0).1 aabbs center 1).2.length
        ≤ (split_indices_wrt_dim indices aabbs center 0).1.length :=
          split_snd_length_le _ _ _ _
      _ < indices.length := split_fst_length_lt _ _ _ _ (by omega)
  · calc (split_indices_wrt_dim
        (split_indices_wrt_dim indices aabbs center 0).2 aabbs center 1).1.length
        ≤ (split_indices_wrt_dim indices aabbs center 0).2.length :=
          split_fst_length_le _ _ _ _
      _ < indices.length := split_snd_length_lt _ _ _ _ (by omega)
  · calc (split_indices_wrt_dim
        (split_indices_wrt_dim indices aabbs center 0).2 aabbs center 1).2.length
        ≤ (split_indices_wrt_dim indices aabbs center 0).2.length :=
          split_snd_length_le _ _ _ _
      _ < indices.length := split_snd_length_lt _ _ _ _ (by omega)

/-- The store-rebuilding fold at the start of `WQuadtree::clear_and_rebuild`
(`wquadtree.rs:160`): the proxies array, the AABB array, and the list of
proxy indices, rebuilt from the `(data, AABB)` pairs (slots chosen by the
`IndexedData` index, resizing on demand). -/
def rebuild_store (dflt : T) (index : T → Nat) (data : List (T × AABB)) :
    List (WQuadtreeProxy T) × List AABB × List Nat :=
  data.foldl
    (fun acc dp =>
      let i := index dp.1
      let prox :=
        if acc.1.length ≤ i then
          acc.1 ++ List.replicate (i + 1 - acc.1.length)
            (WQuadtreeProxy.invalid dflt)
        else acc.1
      let aabbsL :=
        if acc.2.1.length ≤ i then
          acc.2.1 ++ List.replicate (i + 1 - acc.2.1.length) AABB.new_invalid
        else acc.2.1
      (prox.set i ⟨NodeIndex.invalid, dp.1⟩, aabbsL.set i dp.2,
        acc.2.2 ++ [i]))
    (List.replicate data.length (WQuadtreeProxy.invalid dflt),
     List.replicate data.length AABB.new_invalid, [])

/-- `WQuadtree::clear_and_rebuild` (`wquadtree.rs:151`): rebuild proxies
and AABBs from the `(data, AABB)` pairs, then build the tree recursively
under a fresh root.  Total for every finite input. -/
def clear_and_rebuild (qt : WQuadtree T) (dflt : T) (index : T → Nat)
    (data : List (T × AABB)) (dilate : WAABB → WAABB) : WQuadtree T :=
  let st := rebuild_store dflt index data
  let root : WQuadtreeNode :=
    { waabb := WAABB.new_invalid, children := ![1, u32Max, u32Max, u32Max],
      parent := NodeIndex.invalid, leaf := false, dirty := false }
  let qt0 : WQuadtree T :=
    { nodes := [root], dirty_nodes := qt.dirty_nodes, proxies := st.1 }
  let aabbsF := fun i => st.2.1.getD i AABB.new_invalid
  let r := do_recurse_build aabbsF dilate qt0 st.2.2 ⟨0, 0⟩
  { r.1 with
    nodes := r.1.nodes.modify
      (fun n0 =>
        { n0 with
          waabb := ![r.2.2, AABB.new_invalid, AABB.new_invalid,
            AABB.new_invalid] })
      0 }

theorem foldl_length_preserved {α β : Type} (f : List α → β → List α)
    (hf : ∀ acc b, (f acc b).length = acc.length) :
    ∀ (l : List β) (init : List α), (l.foldl f init).length = init.length := by
  intro l
  induction l with
  | nil => intro init; rfl
  | cons x xs ih =>
    intro init
    rw [List.foldl_cons, ih, hf]

/-- `do_recurse_build` keeps the proxies vector length and the dirty queue
of its input state, and strictly grows the node vector (it always pushes
at least one node). -/
theorem do_recurse_build_sizes {T : Type} (aabbs : Nat → AABB)
    (dilate : WAABB → WAABB) (qt : WQuadtree T) (indices : List Nat)
    (parent : NodeIndex) :
    ((do_recurse_build aabbs dilate qt indices parent).1.proxies.length
      = qt.proxies.length) ∧
    qt.nodes.length
      < (do_recurse_build aabbs dilate qt indices parent).1.nodes.length ∧
    (do_recurse_build aabbs dilate qt indices parent).1.dirty_nodes
      = qt.dirty_nodes := by
  induction qt, indices, parent using do_recurse_build.induct aabbs dilate with
  | case1 qt indices parent hle =>
    rw [do_recurse_build, dif_pos hle]
    refine ⟨?_, ?_, ?_⟩
    · exact foldl_length_preserved _ (fun acc b => List.length_modify _ _ _) _ _
    · simp
    · rfl
  | case2 qt indices parent hle denom center lr lbt rbt idn qt1 ra rb rc
      ha1 ha2 hb1 hb2 hc1 hc2 hd1 =>
    have hunf : do_recurse_build aabbs dilate qt indices parent =
        ({ (do_recurse_build aabbs dilate rc.1 rbt.2 ⟨idn, 3⟩).1 with
            nodes := (do_recurse_build aabbs dilate rc.1 rbt.2
                ⟨idn, 3⟩).1.nodes.modify
              (fun n => { n with
                children := ![ra.2.1, rb.2.1, rc.2.1,
                  (do_recurse_build aabbs dilate rc.1 rbt.2
                    ⟨idn, 3⟩).2.1],
                waabb := dilate ![ra.2.2, rb.2.2, rc.2.2,
                  (do_recurse_build aabbs dilate rc.1 rbt.2
                    ⟨idn, 3⟩).2.2] })
              idn },
          idn,
          ((ra.2.2.merged rb.2.2).merged rc.2.2).merged
            (do_recurse_build aabbs dilate rc.1 rbt.2
              ⟨idn, 3⟩).2.2) := by
      rw [do_recurse_build, dif_neg hle]
    rw [hunf]
    dsimp only
    obtain ⟨p4, n4, d4⟩ := hd1
    obtain ⟨p3, n3, d3⟩ := hc1
    obtain ⟨p2, n2, d2⟩ := hb1
    obtain ⟨p1, n1, d1⟩ := ha1
    refine ⟨?_, ?_, ?_⟩
    · rw [p4, p3, p2, p1]
    · rw [List.length_modify]
      have t1 : qt1.nodes.length <
          (do_recurse_build aabbs dilate rc.1 rbt.2
            ⟨idn, 3⟩).1.nodes.length :=
        Nat.lt_trans (Nat.lt_trans (Nat.lt_trans n1 n2) n3) n4
      have t0 : qt.nodes.length < qt1.nodes.length := by
        rw [show qt1.nodes.length = qt.nodes.length + 1 from by simp [qt1]]
        exact Nat.lt_succ_self _
      exact Nat.lt_trans t0 t1
    · rw [d4, d3, d2, d1]

/-- `clear_and_rebuild` produces exactly the proxies of the rebuilt store,
at least a root plus one built node, and keeps the dirty queue of its
input (the source does not clear `dirty_nodes`). -/
theorem clear_and_rebuild_facts {T : Type} (qt : WQuadtree T) (dflt : T)
    (index : T → Nat) (data : List (T × AABB)) (dilate : WAABB → WAABB) :
    (qt.clear_and_rebuild dflt index data dilate).proxies.length
      = (rebuild_store dflt index data).1.length ∧
    1 < (qt.clear_and_rebuild dflt index data dilate).nodes.length ∧
    (qt.clear_and_rebuild dflt index data dilate).dirty_nodes
      = qt.dirty_nodes := by
  unfold clear_and_rebuild
  dsimp only
  have h := do_recurse_build_sizes
    (fun i => (rebuild_store dflt index data).2.1.getD i AABB.new_invalid)
    dilate
    (⟨[⟨WAABB.new_invalid, ![1, u32Max, u32Max, u32Max],
        NodeIndex.invalid, false, false⟩],
      qt.dirty_nodes,
      (rebuild_store dflt index data).1⟩ : WQuadtree T)
    (rebuild_store dflt index data).2.2
    ⟨0, 0⟩
  refine ⟨?_, ?_, ?_⟩
  · exact h.1
  · rw [List.length_modify]
    exact h.2.1
  · exact h.2.2

end WQuadtree

/-! ## The active-set invariants -/

namespace RigidBodySet

/-- One slot of the active dynamic vector is consistent: the stored handle
is live, its body's `active_set_id` points back at the slot, and its status
is `Dynamic` or `Static` (the `activate` stopgap also routes `Static`
bodies through `active_dynamic_set`). -/
def dynSlotOk (s : RigidBodySet) (i : Nat) : Bool :=
  match s.active_dynamic_set[i]? with
  | none => true
  | some h =>
    match s.bodies.get h with
    | none => false
    | some b =>
      decide (b.active_set_id = i ∧
        (b.body_status = BodyStatus.Dynamic ∨
          b.body_status = BodyStatus.Static))

/-- One slot of the active kinematic vector is consistent. -/
def kinSlotOk (s : RigidBodySet) (i : Nat) : Bool :=
  match s.active_kinematic_set[i]? with
  | none => true
  | some h =>
    match s.bodies.get h with
    | none => false
    | some b =>
      decide (b.active_set_id = i ∧ b.body_status = BodyStatus.Kinematic)

/-- The inductive active-set invariant: every slot of either active vector
holds a live handle whose body addresses the slot and whose status matches
the vector. -/
def InvFull (s : RigidBodySet) : Prop :=
  (∀ i, i < s.active_dynamic_set.length → dynSlotOk s i = true) ∧
  (∀ i, i < s.active_kinematic_set.length → kinSlotOk s i = true)

instance (s : RigidBodySet) : Decidable (InvFull s) := by
  unfold InvFull
  infer_instance

/-- The invariant exactly as the specification states it: each active
vector is injectively indexed by `active_set_id`, and no handle is in both
vectors. -/
def ActiveSetInjective (s : RigidBodySet) : Prop :=
  (∀ i h, s.active_dynamic_set[i]? = some h →
    ∃ b, s.bodies.get h = some b ∧ b.active_set_id = i) ∧
  (∀ i h, s.active_kinematic_set[i]? = some h →
    ∃ b, s.bodies.get h = some b ∧ b.active_set_id = i) ∧
  (∀ h, h ∈ s.active_dynamic_set → h ∉ s.active_kinematic_set)

theorem dyn_elim (hInv : InvFull s) {i : Nat} {h : Index}
    (hi : s.active_dynamic_set[i]? = some h) :
    ∃ b, s.bodies.get h = some b ∧ b.active_set_id = i ∧
      (b.body_status = BodyStatus.Dynamic ∨
        b.body_status = BodyStatus.Static) := by
  have hlt := Arena.lt_length_of_getElem?_eq_some hi
  have hok := hInv.1 i hlt
  simp only [dynSlotOk, hi] at hok
  cases hb : s.bodies.get h with
  | none =>
    simp only [hb] at hok
    exact absurd hok (by simp)
  | some b =>
    simp only [hb, decide_eq_true_eq] at hok
    exact ⟨b, rfl, hok.1, hok.2⟩

theorem kin_elim (hInv : InvFull s) {i : Nat} {h : Index}
    (hi : s.active_kinematic_set[i]? = some h) :
    ∃ b, s.bodies.get h = some b ∧ b.active_set_id = i ∧
      b.body_status = BodyStatus.Kinematic := by
  have hlt := Arena.lt_length_of_getElem?_eq_some hi
  have hok := hInv.2 i hlt
  simp only [kinSlotOk, hi] at hok
  cases hb : s.bodies.get h with
  | none =>
    simp only [hb] at hok
    exact absurd hok (by simp)
  | some b =>
    simp only [hb, decide_eq_true_eq] at hok
    exact ⟨b, rfl, hok.1, hok.2⟩

theorem InvFull_intro (s : RigidBodySet)
    (h1 : ∀ i h, s.active_dynamic_set[i]? = some h →
      ∃ b, s.bodies.get h = some b ∧ b.active_set_id = i ∧
        (b.body_status = BodyStatus.Dynamic ∨
          b.body_status = BodyStatus.Static))
    (h2 : ∀ i h, s.active_kinematic_set[i]? = some h →
      ∃ b, s.bodies.get h = some b ∧ b.active_set_id = i ∧
        b.body_status = BodyStatus.Kinematic) :
    InvFull s := by
  constructor
  · intro i hlt
    cases hi : s.active_dynamic_set[i]? with
    | none => simp [dynSlotOk, hi]
    | some h =>
      obtain ⟨b, hb, hid, hst⟩ := h1 i h hi
      simp [dynSlotOk, hi, hb, hid, hst]
  · intro i hlt
    cases hi : s.active_kinematic_set[i]? with
    | none => simp [kinSlotOk, hi]
    | some h =>
      obtain ⟨b, hb, hid, hst⟩ := h2 i h hi
      simp [kinSlotOk, hi, hb, hid, hst]

theorem InvFull_to_injective (s : RigidBodySet) (hInv : InvFull s) :
    ActiveSetInjective s := by
  refine ⟨?_, ?_, ?_⟩
  · intro i h hi
    obtain ⟨b, hb, hid, _⟩ := dyn_elim hInv hi
    exact ⟨b, hb, hid⟩
  · intro i h hi
    obtain ⟨b, hb, hid, _⟩ := kin_elim hInv hi
    exact ⟨b, hb, hid⟩
  · intro h hmemD hmemK
    obtain ⟨i, hi⟩ := List.mem_iff_getElem?.mp hmemD
    obtain ⟨j, hj⟩ := List.mem_iff_getElem?.mp hmemK
    obtain ⟨b, hb, _, hst⟩ := dyn_elim hInv hi
    obtain ⟨b', hb', _, hst'⟩ := kin_elim hInv hj
    rw [hb] at hb'
    cases Option.some_inj.mp hb'
    rcases hst with hst | hst <;> rw [hst] at hst' <;> exact absurd hst' (by simp)

theorem not_mem_dyn_of_not_addressed (hInv : InvFull s) {handle : Index}
    {rb : RigidBody} (hget : s.bodies.get handle = some rb)
    (hnot : ¬s.active_dynamic_set[rb.active_set_id]? = some handle) :
    handle ∉ s.active_dynamic_set := by
  intro hmem
  obtain ⟨j, hj⟩ := List.mem_iff_getElem?.mp hmem
  obtain ⟨b, hb, hid, _⟩ := dyn_elim hInv hj
  rw [hget] at hb
  cases Option.some_inj.mp hb
  exact hnot (hid ▸ hj)

theorem not_mem_kin_of_not_addressed (hInv : InvFull s) {handle : Index}
    {rb : RigidBody} (hget : s.bodies.get handle = some rb)
    (hnot : ¬s.active_kinematic_set[rb.active_set_id]? = some handle) :
    handle ∉ s.active_kinematic_set := by
  intro hmem
  obtain ⟨j, hj⟩ := List.mem_iff_getElem?.mp hmem
  obtain ⟨b, hb, hid, _⟩ := kin_elim hInv hj
  rw [hget] at hb
  cases Option.some_inj.mp hb
  exact hnot (hid ▸ hj)

theorem not_mem_kin_of_status (hInv : InvFull s) {handle : Index}
    {rb : RigidBody} (hget : s.bodies.get handle = some rb)
    (hst : rb.body_status = BodyStatus.Dynamic ∨
      rb.body_status = BodyStatus.Static) :
    handle ∉ s.active_kinematic_set := by
  intro hmem
  obtain ⟨j, hj⟩ := List.mem_iff_getElem?.mp hmem
  obtain ⟨b, hb, _, hstk⟩ := kin_elim hInv hj
  rw [hget] at hb
  cases Option.some_inj.mp hb
  rcases hst with hst | hst <;> rw [hst] at hstk <;> exact absurd hstk (by simp)

theorem not_mem_dyn_of_kin_status (hInv : InvFull s) {handle : Index}
    {rb : RigidBody} (hget : s.bodies.get handle = some rb)
    (hst : rb.body_status = BodyStatus.Kinematic) :
    handle ∉ s.active_dynamic_set := by
  intro hmem
  obtain ⟨j, hj⟩ := List.mem_iff_getElem?.mp hmem
  obtain ⟨b, hb, _, hstd⟩ := dyn_elim hInv hj
  rw [hget] at hb
  cases Option.some_inj.mp hb
  rcases hstd with hstd | hstd <;> rw [hst] at hstd <;> exact absurd hstd (by simp)

theorem not_mem_of_dead {s : RigidBodySet} {handle : Index}
    (hInv : InvFull s) (hdead : s.bodies.get handle = none) :
    handle ∉ s.active_dynamic_set ∧ handle ∉ s.active_kinematic_set := by
  constructor
  · intro hmem
    obtain ⟨j, hj⟩ := List.mem_iff_getElem?.mp hmem
    obtain ⟨b, hb, _, _⟩ := dyn_elim hInv hj
    rw [hdead] at hb
    exact Option.noConfusion hb
  · intro hmem
    obtain ⟨j, hj⟩ := List.mem_iff_getElem?.mp hmem
    obtain ⟨b, hb, _, _⟩ := kin_elim hInv hj
    rw [hdead] at hb
    exact Option.noConfusion hb

theorem getElem?_append_last {l : List α} {x : α} {i : Nat} {h : α}
    (hi : (l ++ [x])[i]? = some h) :
    (i < l.length ∧ l[i]? = some h) ∨ (i = l.length ∧ h = x) := by
  by_cases hlt : i < l.length
  · left
    rw [List.getElem?_append_left hlt] at hi
    exact ⟨hlt, hi⟩
  · right
    by_cases heq : i = l.length
    · subst heq
      rw [List.getElem?_concat_length] at hi
      exact ⟨rfl, (Option.some_inj.mp hi).symm⟩
    · exfalso
      have : (l ++ [x])[i]? = none := by
        rw [List.getElem?_eq_none_iff]
        simp
        omega
      rw [this] at hi
      exact Option.noConfusion hi

/-- Inserting a fresh handle at the end of the dynamic vector, with a body
whose `active_set_id` addresses the new slot and whose status matches,
preserves the invariant. -/
theorem InvFull_push_dyn {s : RigidBodySet} {handle : Index}
    {rb rb2 : RigidBody} (hInv : InvFull s)
    (hget : s.bodies.get handle = some rb)
    (hnotmem : handle ∉ s.active_dynamic_set)
    (hstat2 : rb2.body_status = rb.body_status)
    (hstat : rb.body_status = BodyStatus.Dynamic ∨
      rb.body_status = BodyStatus.Static)
    (hid : rb2.active_set_id = s.active_dynamic_set.length) :
    InvFull { s with
      bodies := s.bodies.set handle rb2,
      active_dynamic_set := s.active_dynamic_set ++ [handle] } := by
  apply InvFull_intro
  · intro i h hi
    simp only at hi
    rcases getElem?_append_last hi with ⟨hlt, hold⟩ | ⟨hieq, heq⟩
    · obtain ⟨b, hb, hbid, hbst⟩ := dyn_elim hInv hold
      have hne : h ≠ handle := by
        intro hc
        exact hnotmem (hc ▸ List.getElem?_mem hold)
      refine ⟨b, ?_, hbid, hbst⟩
      simp only
      rw [Arena.get_set_ne _ _ _ _ hne]
      exact hb
    · subst hieq
      subst heq
      refine ⟨rb2, ?_, hid, hstat2 ▸ hstat⟩
      simp only
      rw [Arena.get_set_same _ _ _ (by rw [hget]; rfl)]
  · intro i h hi
    simp only at hi
    obtain ⟨b, hb, hbid, hbst⟩ := kin_elim hInv hi
    have hne : h ≠ handle := by
      intro hc
      subst hc
      rw [hget] at hb
      cases Option.some_inj.mp hb
      rcases hstat with hst | hst <;> rw [hst] at hbst <;>
        exact absurd hbst (by simp)
    refine ⟨b, ?_, hbid, hbst⟩
    simp only
    rw [Arena.get_set_ne _ _ _ _ hne]
    exact hb

/-- Symmetric push lemma for the kinematic vector. -/
theorem InvFull_push_kin {s : RigidBodySet} {handle : Index}
    {rb rb2 : RigidBody} (hInv : InvFull s)
    (hget : s.bodies.get handle = some rb)
    (hnotmem : handle ∉ s.active_kinematic_set)
    (hstat2 : rb2.body_status = rb.body_status)
    (hstat : rb.body_status = BodyStatus.Kinematic)
    (hid : rb2.active_set_id = s.active_kinematic_set.length) :
    InvFull { s with
      bodies := s.bodies.set handle rb2,
      active_kinematic_set := s.active_kinematic_set ++ [handle] } := by
  apply InvFull_intro
  · intro i h hi
    simp only at hi
    obtain ⟨b, hb, hbid, hbst⟩ := dyn_elim hInv hi
    have hne : h ≠ handle := by
      intro hc
      subst hc
      rw [hget] at hb
      cases Option.some_inj.mp hb
      rcases hbst with hst | hst <;> rw [hstat] at hst <;>
        exact absurd hst (by simp)
    refine ⟨b, ?_, hbid, hbst⟩
    simp only
    rw [Arena.get_set_ne _ _ _ _ hne]
    exact hb
  · intro i h hi
    simp only at hi
    rcases getElem?_append_last hi with ⟨hlt, hold⟩ | ⟨hieq, heq⟩
    · obtain ⟨b, hb, hbid, hbst⟩ := kin_elim hInv hold
      have hne : h ≠ handle := by
        intro hc
        exact hnotmem (hc ▸ List.getElem?_mem hold)
      refine ⟨b, ?_, hbid, hbst⟩
      simp only
      rw [Arena.get_set_ne _ _ _ _ hne]
      exact hb
    · subst hieq
      subst heq
      refine ⟨rb2, ?_, hid, hstat2 ▸ hstat⟩
      simp only
      rw [Arena.get_set_same _ _ _ (by rw [hget]; rfl)]

/-- Overwriting a live body with one that keeps its `active_set_id` and its
status preserves the invariant. -/
theorem InvFull_set_same {s : RigidBodySet} {handle : Index}
    {rb rb2 : RigidBody} (hInv : InvFull s)
    (hget : s.bodies.get handle = some rb)
    (hid : rb2.active_set_id = rb.active_set_id)
    (hstat : rb2.body_status = rb.body_status) :
    InvFull { s with bodies := s.bodies.set handle rb2 } := by
  apply InvFull_intro
  · intro i h hi
    simp only at hi
    obtain ⟨b, hb, hbid, hbst⟩ := dyn_elim hInv hi
    by_cases hne : h = handle
    · subst hne
      rw [hget] at hb
      cases Option.some_inj.mp hb
      refine ⟨rb2, ?_, hid ▸ hbid, hstat ▸ hbst⟩
      simp only
      rw [Arena.get_set_same _ _ _ (by rw [hget]; rfl)]
    · refine ⟨b, ?_, hbid, hbst⟩
      simp only
      rw [Arena.get_set_ne _ _ _ _ hne]
      exact hb
  · intro i h hi
    simp only at hi
    obtain ⟨b, hb, hbid, hbst⟩ := kin_elim hInv hi
    by_cases hne : h = handle
    · subst hne
      rw [hget] at hb
      cases Option.some_inj.mp hb
      refine ⟨rb2, ?_, hid ▸ hbid, hstat ▸ hbst⟩
      simp only
      rw [Arena.get_set_same _ _ _ (by rw [hget]; rfl)]
    · refine ⟨b, ?_, hbid, hbst⟩
      simp only
      rw [Arena.get_set_ne _ _ _ _ hne]
      exact hb

theorem InvFull_of_eq {x y : RigidBodySet} (hb : y.bodies = x.bodies)
    (hd : y.active_dynamic_set = x.active_dynamic_set)
    (hk : y.active_kinematic_set = x.active_kinematic_set)
    (hx : InvFull x) : InvFull y := by
  apply InvFull_intro
  · intro i h hi
    rw [hd] at hi
    rw [hb]
    exact dyn_elim hx hi
  · intro i h hi
    rw [hk] at hi
    rw [hb]
    exact kin_elim hx hi

theorem foldl_preserves {α β : Type} {P : α → Prop}
    (f : α → β → α)
    (hf : ∀ st h, P st → P (f st h)) :
    ∀ (l : List β) (st : α), P st → P (l.foldl f st) := by
  intro l
  induction l with
  | nil => intro st hst; exact hst
  | cons x xs ih => intro st hst; exact ih (f st x) (hf st x hst)

/-- `activate` preserves the active-set invariant. -/
theorem activate_preserves_InvFull {s s' : RigidBodySet} {handle : Index}
    (hInv : InvFull s) (hact : s.activate handle = some s') : InvFull s' := by
  unfold activate at hact
  cases hget : s.bodies.get handle with
  | none =>
    simp only [hget] at hact
    exact Option.noConfusion hact
  | some rb =>
    simp only [hget] at hact
    cases hst : rb.body_status with
    | Dynamic =>
      simp only [hst] at hact
      by_cases haddr : s.active_dynamic_set[rb.active_set_id]? = some handle
      · rw [if_pos haddr] at hact
        cases Option.some_inj.mp hact
        exact hInv
      · rw [if_neg haddr] at hact
        cases Option.some_inj.mp hact
        exact InvFull_push_dyn hInv hget
          (not_mem_dyn_of_not_addressed hInv hget haddr) hst.symm
          (Or.inl hst) rfl
    | Static =>
      simp only [hst] at hact
      by_cases haddr : s.active_dynamic_set[rb.active_set_id]? = some handle
      · rw [if_pos haddr] at hact
        cases Option.some_inj.mp hact
        exact hInv
      · rw [if_neg haddr] at hact
        cases Option.some_inj.mp hact
        exact InvFull_push_dyn hInv hget
          (not_mem_dyn_of_not_addressed hInv hget haddr) hst.symm
          (Or.inr hst) rfl
    | Kinematic =>
      simp only [hst] at hact
      by_cases haddr : s.active_kinematic_set[rb.active_set_id]? = some handle
      · rw [if_pos haddr] at hact
        cases Option.some_inj.mp hact
        exact hInv
      · rw [if_neg haddr] at hact
        cases Option.some_inj.mp hact
        exact InvFull_push_kin hInv hget
          (not_mem_kin_of_not_addressed hInv hget haddr) hst.symm hst rfl

/-- Growing the arena with a fresh body (no vector change) preserves the
invariant. -/
theorem InvFull_insert_arena {s : RigidBodySet} (rb : RigidBody)
    (hInv : InvFull s) :
    InvFull { s with bodies := (s.bodies.insert rb).2 } := by
  apply InvFull_intro
  · intro i h hi
    simp only at hi
    obtain ⟨b, hb, hbid, hbst⟩ := dyn_elim hInv hi
    have hne : h ≠ (s.bodies.insert rb).1 := by
      intro hc
      rw [hc, Arena.get_insert_fresh] at hb
      exact Option.noConfusion hb
    refine ⟨b, ?_, hbid, hbst⟩
    simp only
    rw [Arena.get_insert_other _ _ _ hne]
    exact hb
  · intro i h hi
    simp only at hi
    obtain ⟨b, hb, hbid, hbst⟩ := kin_elim hInv hi
    have hne : h ≠ (s.bodies.insert rb).1 := by
      intro hc
      rw [hc, Arena.get_insert_fresh] at hb
      exact Option.noConfusion hb
    refine ⟨b, ?_, hbid, hbst⟩
    simp only
    rw [Arena.get_insert_other _ _ _ hne]
    exact hb

/-- `insert` preserves the active-set invariant. -/
theorem insert_preserves_InvFull (s : RigidBodySet) (rb0 : RigidBody)
    (hInv : InvFull s) : InvFull (s.insert rb0).2 := by
  unfold insert
  simp only
  set rb := rb0.reset_internal_references with hrb
  set hb := s.bodies.insert rb with hhb
  set s1 : RigidBodySet := { s with bodies := hb.2 } with hs1
  have hInv1 : InvFull s1 := InvFull_insert_arena rb hInv
  have hget1 : s1.bodies.get hb.1 = some rb := Arena.get_insert_same s.bodies rb
  have hnotmem : hb.1 ∉ s.active_dynamic_set ∧ hb.1 ∉ s.active_kinematic_set :=
    not_mem_of_dead hInv (Arena.get_insert_fresh s.bodies rb)
  by_cases h1 : ¬rb.is_sleeping ∧ rb.is_dynamic
  · have hdyn : rb.body_status = BodyStatus.Dynamic := by
      have := h1.2
      unfold RigidBody.is_dynamic at this
      simpa using this
    have hkin : rb.is_kinematic = false := by
      unfold RigidBody.is_kinematic
      simp [hdyn]
    have hd : rb.is_dynamic = true := by
      unfold RigidBody.is_dynamic
      simp [hdyn]
    rw [if_pos h1]
    simp only [hkin, Bool.false_eq_true, if_false, hd, not_true_eq_false]
    exact InvFull_push_dyn hInv1 hget1 hnotmem.1 rfl (Or.inl hdyn) rfl
  · rw [if_neg h1]
    by_cases h2 : rb.is_kinematic
    · have hkin : rb.body_status = BodyStatus.Kinematic := by
        unfold RigidBody.is_kinematic at h2
        simpa using h2
      have hd : rb.is_dynamic = false := by
        unfold RigidBody.is_dynamic
        simp [hkin]
      rw [if_pos h2]
      simp only [hd, Bool.false_eq_true, not_false_eq_true, if_true]
      refine InvFull_of_eq (x := { s1 with
        bodies := s1.bodies.set hb.1
          { rb with active_set_id := s1.active_kinematic_set.length },
        active_kinematic_set := s1.active_kinematic_set ++ [hb.1] })
        rfl rfl rfl ?_
      exact InvFull_push_kin hInv1 hget1 hnotmem.2 rfl hkin rfl
    · rw [if_neg h2]
      by_cases h3 : ¬rb.is_dynamic
      · simp only [h3, if_true]
        exact InvFull_of_eq rfl rfl rfl hInv1
      · simp only [h3, if_false]
        exact hInv1

/-- `wake_up` preserves the active-set invariant. -/
theorem wake_up_preserves_InvFull (s : RigidBodySet) (handle : Index)
    (strong : Bool) (hInv : InvFull s) : InvFull (s.wake_up handle strong) := by
  unfold wake_up
  cases hget : s.bodies.get handle with
  | none => exact hInv
  | some rb =>
    simp only
    by_cases hd : rb.is_dynamic
    · rw [if_pos hd]
      have hdyn : rb.body_status = BodyStatus.Dynamic := by
        unfold RigidBody.is_dynamic at hd
        simpa using hd
      have hid : (rb.wake_up strong).active_set_id = rb.active_set_id := rfl
      have hst : (rb.wake_up strong).body_status = rb.body_status := rfl
      by_cases haddr :
          s.active_dynamic_set[(rb.wake_up strong).active_set_id]? = some handle
      · rw [if_pos haddr]
        exact InvFull_set_same hInv hget hid hst
      · rw [if_neg haddr]
        rw [hid] at haddr
        exact InvFull_push_dyn hInv hget
          (not_mem_dyn_of_not_addressed hInv hget haddr) hst (Or.inl hdyn) rfl
    · rw [if_neg hd]
      exact hInv

/-- One drain step of `maintain_active_set` preserves the invariant. -/
theorem maintainStep_preserves_InvFull (s : RigidBodySet) (handle : Index)
    (hInv : InvFull s) : InvFull (s.maintainStep handle) := by
  unfold maintainStep
  cases hget : s.bodies.get handle with
  | none => exact hInv
  | some rb =>
    simp only
    by_cases hc : ¬rb.is_sleeping ∧ rb.is_dynamic ∧
        s.active_dynamic_set[rb.active_set_id]? ≠ some handle
    · rw [if_pos hc]
      have hdyn : rb.body_status = BodyStatus.Dynamic := by
        have := hc.2.1
        unfold RigidBody.is_dynamic at this
        simpa using this
      exact InvFull_push_dyn hInv hget
        (not_mem_dyn_of_not_addressed hInv hget hc.2.2) rfl (Or.inl hdyn) rfl
    · rw [if_neg hc]
      exact hInv

/-- `maintain_active_set` preserves the active-set invariant. -/
theorem maintain_preserves_InvFull (s : RigidBodySet) (hInv : InvFull s) :
    InvFull s.maintain_active_set := by
  unfold maintain_active_set
  apply foldl_preserves maintainStep maintainStep_preserves_InvFull
  exact InvFull_of_eq rfl rfl rfl hInv

/-- The swap-remove-and-fix pass of `remove`, at the list level: removing
the handle addressed at `i0` and re-indexing the moved replacement keeps
the vector injectively indexed, touches no body outside the vector, and
shrinks the vector. `Q` is the status constraint of the vector. -/
theorem removeFix_vector_ok (Q : BodyStatus → Prop) (B1 : Arena RigidBody)
    (v : List Index) (handle : Index) (i0 : Nat)
    (haddr : v[i0]? = some handle)
    (hdead : B1.get handle = none)
    (hslots : ∀ j h', v[j]? = some h' → h' ≠ handle →
      ∃ b, B1.get h' = some b ∧ b.active_set_id = j ∧ Q b.body_status)
    (hONE : ∀ j, v[j]? = some handle → j = i0) :
    ∃ p, removeFromActiveSet B1 v handle i0 = some p ∧
      (∀ j h', p.2[j]? = some h' →
        ∃ b, p.1.get h' = some b ∧ b.active_set_id = j ∧ Q b.body_status) ∧
      (∀ h', h' ∉ v → p.1.get h' = B1.get h') ∧
      (∀ h', h' ∈ p.2 → h' ∈ v) := by
  have hi0 : i0 < v.length := Arena.lt_length_of_getElem?_eq_some haddr
  have hvne : v ≠ [] := by
    intro hc
    rw [hc] at haddr
    simp at haddr
  obtain ⟨last, hlast⟩ : ∃ last, v.getLast? = some last :=
    Option.isSome_iff_exists.mp (by simpa using List.getLast?_isSome.mpr hvne)
  have hlastg : v[v.length - 1]? = some last := by
    rw [← List.getLast?_eq_getElem?]
    exact hlast
  have hv1 : swapRemove v i0 = (v.set i0 last).dropLast := by
    unfold swapRemove
    rw [hlast]
  have hv1get : ∀ j, (swapRemove v i0)[j]? =
      if j < v.length - 1 then (if i0 = j then some last else v[j]?)
      else none := by
    intro j
    rw [hv1, List.dropLast_eq_take, List.getElem?_take, List.length_set,
      List.getElem?_set]
    by_cases hj : j < v.length - 1
    · rw [if_pos hj, if_pos hj]
      by_cases hij : i0 = j
      · rw [if_pos hij, if_pos hij, if_pos (by omega)]
      · rw [if_neg hij, if_neg hij]
    · rw [if_neg hj, if_neg hj]
  unfold removeFromActiveSet
  rw [if_pos haddr]
  by_cases hend : i0 = v.length - 1
  · -- the handle is the last element: swap-remove is a plain pop
    have hlasth : last = handle := by
      have := hend ▸ haddr
      rw [hlastg] at this
      exact Option.some_inj.mp this
    have hnone : (swapRemove v i0)[i0]? = none := by
      rw [hv1get]
      rw [if_neg (by omega)]
    simp only [hnone]
    refine ⟨(B1, swapRemove v i0), rfl, ?_, ?_, ?_⟩
    · intro j h' hj
      rw [hv1get] at hj
      by_cases hjlt : j < v.length - 1
      · rw [if_pos hjlt] at hj
        have hij : ¬i0 = j := by omega
        rw [if_neg hij] at hj
        have hne : h' ≠ handle := by
          intro hc
          subst hc
          exact hij (hONE j hj).symm
        exact hslots j h' hj hne
      · rw [if_neg hjlt] at hj
        exact Option.noConfusion hj
    · intro h' _
      rfl
    · intro h' hmem
      obtain ⟨j, hj⟩ := List.mem_iff_getElem?.mp hmem
      rw [hv1get] at hj
      by_cases hjlt : j < v.length - 1
      · rw [if_pos hjlt, if_neg (by omega)] at hj
        exact List.getElem?_mem hj
      · rw [if_neg hjlt] at hj
        exact Option.noConfusion hj
  · -- a genuine swap: the replacement is the old last element
    have hlastne : last ≠ handle := by
      intro hc
      apply hend
      have hx : v[v.length - 1]? = some handle := by
        rw [← hc]
        exact hlastg
      exact (hONE (v.length - 1) hx).symm
    have hrepl : (swapRemove v i0)[i0]? = some last := by
      rw [hv1get, if_pos (by omega), if_pos rfl]
    simp only [hrepl]
    obtain ⟨bl, hbl, hblid, hblQ⟩ :=
      hslots (v.length - 1) last hlastg hlastne
    simp only [hbl]
    refine ⟨(B1.set last { bl with active_set_id := i0 }, swapRemove v i0),
      rfl, ?_, ?_, ?_⟩
    · intro j h' hj
      rw [hv1get] at hj
      by_cases hjlt : j < v.length - 1
      · rw [if_pos hjlt] at hj
        by_cases hij : i0 = j
        · rw [if_pos hij] at hj
          cases Option.some_inj.mp hj
          refine ⟨{ bl with active_set_id := i0 }, ?_, hij, hblQ⟩
          exact Arena.get_set_same _ _ _ (by rw [hbl]; rfl)
        · rw [if_neg hij] at hj
          have hne : h' ≠ handle := by
            intro hc
            exact hij ((hONE j (hc ▸ hj))).symm
          obtain ⟨b, hb, hbid, hbQ⟩ := hslots j h' hj hne
          have hne2 : h' ≠ last := by
            intro hc
            subst hc
            rw [hbl] at hb
            cases Option.some_inj.mp hb
            omega
          refine ⟨b, ?_, hbid, hbQ⟩
          rw [Arena.get_set_ne _ _ _ _ hne2]
          exact hb
      · rw [if_neg hjlt] at hj
        exact Option.noConfusion hj
    · intro h' hmem
      have hne2 : h' ≠ last := by
        intro hc
        exact hmem (hc ▸ List.getElem?_mem hlastg)
      rw [Arena.get_set_ne _ _ _ _ hne2]
    · intro h' hmem
      obtain ⟨j, hj⟩ := List.mem_iff_getElem?.mp hmem
      rw [hv1get] at hj
      by_cases hjlt : j < v.length - 1
      · rw [if_pos hjlt] at hj
        by_cases hij : i0 = j
        · rw [if_pos hij] at hj
          cases Option.some_inj.mp hj
          exact List.getElem?_mem hlastg
        · rw [if_neg hij] at hj
          exact List.getElem?_mem hj
      · rw [if_neg hjlt] at hj
        exact Option.noConfusion hj

/-- When the vector does not address the handle, the pass is a no-op. -/
theorem removeFromActiveSet_noop (B1 : Arena RigidBody) (v : List Index)
    (handle : Index) (i0 : Nat) (hnot : ¬v[i0]? = some handle) :
    removeFromActiveSet B1 v handle i0 = some (B1, v) := by
  unfold removeFromActiveSet
  rw [if_neg hnot]

/-- `ColliderSet::remove` preserves the body-set invariant (its only body
mutations are the collider unregistration, which keeps `active_set_id` and
the status, and a `wake_up`). -/
theorem collider_remove_preserves_InvFull (cs : ColliderSet) (handle : Index)
    (bodies : RigidBodySet) (hInv : InvFull bodies) :
    InvFull (cs.remove handle bodies).2.2 := by
  unfold ColliderSet.remove
  rcases hr : cs.colliders.remove handle with ⟨ocoll, arena1⟩
  cases ocoll with
  | none => exact hInv
  | some collider =>
    simp only
    cases hp : bodies.bodies.get collider.parent with
    | none => exact hInv
    | some parent =>
      simp only
      apply wake_up_preserves_InvFull
      exact InvFull_set_same hInv hp rfl rfl

theorem arena_remove_fst (a : Arena T) (h : Index) :
    (a.remove h).1 = a.get h := by
  unfold Arena.remove
  cases a.get h <;> rfl

/-- `RigidBodySet::remove` preserves the active-set invariant. -/
theorem remove_preserves_InvFull (s : RigidBodySet) (handle : Index)
    (cs : ColliderSet) (jn : Nat → List Index) (hInv : InvFull s)
    (r : Option RigidBody × RigidBodySet × ColliderSet)
    (hrm : s.remove handle cs jn = some r) : InvFull r.2.1 := by
  unfold remove at hrm
  rcases hrem : s.bodies.remove handle with ⟨orb, arena1⟩
  cases orb with
  | none =>
    rw [hrem] at hrm
    simp only at hrm
    cases Option.some_inj.mp hrm
    exact hInv
  | some rb =>
    have hget : s.bodies.get handle = some rb := by
      rw [← arena_remove_fst, hrem]
    have harena1 : arena1 = (s.bodies.remove handle).2 := by rw [hrem]
    have hdead : arena1.get handle = none := by
      rw [harena1]
      exact Arena.get_remove_same s.bodies handle
    have hother : ∀ h', h' ≠ handle → arena1.get h' = s.bodies.get h' := by
      intro h' hne
      rw [harena1]
      exact Arena.get_remove_ne s.bodies handle h' hne
    rw [hrem] at hrm
    simp only at hrm
    by_cases haddrK :
        s.active_kinematic_set[rb.active_set_id]? = some handle
    · -- the body was kinematic and addressed in the kinematic vector
      obtain ⟨brb, hbrb, _, hstK⟩ := kin_elim hInv haddrK
      rw [hget] at hbrb
      cases Option.some_inj.mp hbrb
      obtain ⟨p2, hp2, hp2slots, hp2frame, hp2sub⟩ :=
        removeFix_vector_ok (· = BodyStatus.Kinematic) arena1
          s.active_kinematic_set handle rb.active_set_id haddrK hdead
          (by
            intro j h' hj hne
            obtain ⟨b, hb, hbid, hbst⟩ := kin_elim hInv hj
            exact ⟨b, (hother h' hne) ▸ hb, hbid, hbst⟩)
          (by
            intro j hj
            obtain ⟨b, hb, hbid, _⟩ := kin_elim hInv hj
            rw [hget] at hb
            cases Option.some_inj.mp hb
            exact hbid.symm)
      rw [hp2] at hrm
      simp only at hrm
      have hnotD : handle ∉ s.active_dynamic_set :=
        not_mem_dyn_of_kin_status hInv hget hstK
      have haddrD : ¬s.active_dynamic_set[rb.active_set_id]? = some handle := by
        intro hc
        exact hnotD (List.getElem?_mem hc)
      rw [removeFromActiveSet_noop _ _ _ _ haddrD] at hrm
      simp only at hrm
      have hInv3 : InvFull { s with
          bodies := p2.1,
          active_kinematic_set := p2.2 } := by
        apply InvFull_intro
        · intro i h' hi
          simp only at hi
          obtain ⟨b, hb, hbid, hbst⟩ := dyn_elim hInv hi
          have hneH : h' ≠ handle := by
            intro hc
            exact hnotD (hc ▸ List.getElem?_mem hi)
          have hnotK : h' ∉ s.active_kinematic_set :=
            not_mem_kin_of_status hInv hb hbst
          refine ⟨b, ?_, hbid, hbst⟩
          simp only
          rw [hp2frame h' hnotK, hother h' hneH]
          exact hb
        · intro i h' hi
          simp only at hi
          obtain ⟨b, hb, hbid, hbst⟩ := hp2slots i h' hi
          exact ⟨b, hb, hbid, hbst⟩
      -- the collider and joint clean-ups preserve the invariant
      have hreq := Option.some_inj.mp hrm
      rw [← hreq]
      apply foldl_preserves (fun st h => st.wake_up h true)
        (fun st h hst => wake_up_preserves_InvFull st h true hst)
      have hfold := foldl_preserves
        (P := fun p : ColliderSet × RigidBodySet => InvFull p.2)
        (fun p c =>
          ((p.1.remove c p.2).2.1, (p.1.remove c p.2).2.2))
        (fun p c hp => collider_remove_preserves_InvFull p.1 c p.2 hp)
        rb.colliders (cs, { s with
          bodies := p2.1,
          active_kinematic_set := p2.2 }) hInv3
      exact hfold
    · rw [removeFromActiveSet_noop _ _ _ _ haddrK] at hrm
      simp only at hrm
      have hnotK : handle ∉ s.active_kinematic_set :=
        not_mem_kin_of_not_addressed hInv hget haddrK
      by_cases haddrD :
          s.active_dynamic_set[rb.active_set_id]? = some handle
      · obtain ⟨brb, hbrb, _, hstD⟩ := dyn_elim hInv haddrD
        rw [hget] at hbrb
        cases Option.some_inj.mp hbrb
        obtain ⟨p3, hp3, hp3slots, hp3frame, hp3sub⟩ :=
          removeFix_vector_ok
            (fun st => st = BodyStatus.Dynamic ∨ st = BodyStatus.Static)
            arena1 s.active_dynamic_set handle rb.active_set_id haddrD hdead
            (by
              intro j h' hj hne
              obtain ⟨b, hb, hbid, hbst⟩ := dyn_elim hInv hj
              exact ⟨b, (hother h' hne) ▸ hb, hbid, hbst⟩)
            (by
              intro j hj
              obtain ⟨b, hb, hbid, _⟩ := dyn_elim hInv hj
              rw [hget] at hb
              cases Option.some_inj.mp hb
              exact hbid.symm)
        rw [hp3] at hrm
        simp only at hrm
        have hInv3 : InvFull { s with
            bodies := p3.1,
            active_dynamic_set := p3.2 } := by
          apply InvFull_intro
          · intro i h' hi
            simp only at hi
            obtain ⟨b, hb, hbid, hbst⟩ := hp3slots i h' hi
            exact ⟨b, hb, hbid, hbst⟩
          · intro i h' hi
            simp only at hi
            obtain ⟨b, hb, hbid, hbst⟩ := kin_elim hInv hi
            have hneH : h' ≠ handle := by
              intro hc
              exact hnotK (hc ▸ List.getElem?_mem hi)
            have hnotD2 : h' ∉ s.active_dynamic_set :=
              not_mem_dyn_of_kin_status hInv hb hbst
            refine ⟨b, ?_, hbid, hbst⟩
            simp only
            rw [hp3frame h' hnotD2, hother h' hneH]
            exact hb
        have hreq := Option.some_inj.mp hrm
        rw [← hreq]
        apply foldl_preserves (fun st h => st.wake_up h true)
          (fun st h hst => wake_up_preserves_InvFull st h true hst)
        have hfold := foldl_preserves
          (P := fun p : ColliderSet × RigidBodySet => InvFull p.2)
          (fun p c =>
            ((p.1.remove c p.2).2.1, (p.1.remove c p.2).2.2))
          (fun p c hp => collider_remove_preserves_InvFull p.1 c p.2 hp)
          rb.colliders (cs, { s with
            bodies := p3.1,
            active_dynamic_set := p3.2 }) hInv3
        exact hfold
      · rw [removeFromActiveSet_noop _ _ _ _ haddrD] at hrm
        simp only at hrm
        have hnotD : handle ∉ s.active_dynamic_set :=
          not_mem_dyn_of_not_addressed hInv hget haddrD
        have hInv3 : InvFull { s with bodies := arena1 } := by
          apply InvFull_intro
          · intro i h' hi
            simp only at hi
            obtain ⟨b, hb, hbid, hbst⟩ := dyn_elim hInv hi
            have hneH : h' ≠ handle := by
              intro hc
              exact hnotD (hc ▸ List.getElem?_mem hi)
            refine ⟨b, ?_, hbid, hbst⟩
            simp only
            rw [hother h' hneH]
            exact hb
          · intro i h' hi
            simp only at hi
            obtain ⟨b, hb, hbid, hbst⟩ := kin_elim hInv hi
            have hneH : h' ≠ handle := by
              intro hc
              exact hnotK (hc ▸ List.getElem?_mem hi)
            refine ⟨b, ?_, hbid, hbst⟩
            simp only
            rw [hother h' hneH]
            exact hb
        have hreq := Option.some_inj.mp hrm
        rw [← hreq]
        apply foldl_preserves (fun st h => st.wake_up h true)
          (fun st h hst => wake_up_preserves_InvFull st h true hst)
        have hfold := foldl_preserves
          (P := fun p : ColliderSet × RigidBodySet => InvFull p.2)
          (fun p c =>
            ((p.1.remove c p.2).2.1, (p.1.remove c p.2).2.2))
          (fun p c hp => collider_remove_preserves_InvFull p.1 c p.2 hp)
          rb.colliders (cs, { s with bodies := arena1 }) hInv3
        exact hfold

/-! ### Invariants of `update_active_set_with_contacts` -/

/-- The traversal-loop invariant on the rebuilt dynamic vector: every entry
is live, addresses its slot, is dynamic, awake, and stamped with the
current timestamp. -/
def TravDyn (ts : Nat) (s : RigidBodySet) : Prop :=
  ∀ i h, s.active_dynamic_set[i]? = some h →
    ∃ b, s.bodies.get h = some b ∧ b.active_set_id = i ∧
      b.body_status = BodyStatus.Dynamic ∧ b.active_set_timestamp = ts ∧
      b.activation.sleeping = false

/-- The kinematic half of the invariant, stable through the whole
routine. -/
def KinOk (s : RigidBodySet) : Prop :=
  ∀ i h, s.active_kinematic_set[i]? = some h →
    ∃ b, s.bodies.get h = some b ∧ b.active_set_id = i ∧
      b.body_status = BodyStatus.Kinematic

/-- Shape of `active_islands` during the traversal: starts at 0, strictly
increasing, last boundary at most the vector length, and equal only in the
initial `[0]`/empty-vector configuration. -/
def IslandsOk (s : RigidBodySet) : Prop :=
  s.active_islands.head? = some 0 ∧
  List.Chain' (· < ·) s.active_islands ∧
  ∃ lastB, s.active_islands.getLast? = some lastB ∧
    lastB ≤ s.active_dynamic_set.length ∧
    (lastB = s.active_dynamic_set.length →
      s.active_islands = [0] ∧ s.active_dynamic_set = [])

/-- Sleep-candidate dichotomy: every handle in `can_sleep` is live and
either still tentatively sleeping or reached by the traversal (in the
rebuilt dynamic vector). -/
def SleepCS (s : RigidBodySet) : Prop :=
  ∀ h, h ∈ s.can_sleep →
    ∃ b, s.bodies.get h = some b ∧
      (b.activation.sleeping = true ∨ h ∈ s.active_dynamic_set)

/-- After the candidate split, every `can_sleep` handle is live and marked
tentatively sleeping. -/
def SleepCS0 (s : RigidBodySet) : Prop :=
  ∀ h, h ∈ s.can_sleep →
    ∃ b, s.bodies.get h = some b ∧ b.activation.sleeping = true

theorem sleep_idem (b : RigidBody) : b.sleep.sleep = b.sleep := rfl

theorem sleep_sleeping (b : RigidBody) :
    b.sleep.activation.sleeping = true := rfl

/-- The candidate-split fold keeps the kinematic invariant and establishes
the sleep-candidate property; it never touches the (already drained)
dynamic vector, the islands, or the timestamp. -/
theorem drain_fold (updE : RigidBody → ℚ) :
    ∀ (l : List Index) (st st' : RigidBodySet),
      l.foldlM (drainStep updE) st = some st' →
      KinOk st → SleepCS0 st →
      KinOk st' ∧ SleepCS0 st' ∧
      st'.active_dynamic_set = st.active_dynamic_set ∧
      st'.active_islands = st.active_islands ∧
      st'.active_set_timestamp = st.active_set_timestamp ∧
      st'.active_kinematic_set = st.active_kinematic_set := by
  intro l
  induction l with
  | nil =>
    intro st st' hfold hK hS
    cases Option.some_inj.mp hfold
    exact ⟨hK, hS, rfl, rfl, rfl, rfl⟩
  | cons x xs ih =>
    intro st st' hfold hK hS
    rw [List.foldlM_cons] at hfold
    cases hstep : drainStep updE st x with
    | none => rw [hstep] at hfold; exact Option.noConfusion hfold
    | some st1 =>
      rw [hstep] at hfold
      rw [Option.bind_eq_bind, Option.some_bind] at hfold
      have hmain : KinOk st1 ∧ SleepCS0 st1 ∧
          st1.active_dynamic_set = st.active_dynamic_set ∧
          st1.active_islands = st.active_islands ∧
          st1.active_set_timestamp = st.active_set_timestamp ∧
          st1.active_kinematic_set = st.active_kinematic_set := by
        unfold drainStep at hstep
        cases hget : st.bodies.get x with
        | none => rw [hget] at hstep; exact Option.noConfusion hstep
        | some rb =>
          rw [hget] at hstep
          simp only at hstep
          by_cases hcond : (rb.update_energy updE).activation.energy ≤
              (rb.update_energy updE).activation.threshold
          · rw [if_pos hcond] at hstep
            cases Option.some_inj.mp hstep
            refine ⟨?_, ?_, rfl, rfl, rfl, rfl⟩
            · intro i h' hi
              simp only at hi
              obtain ⟨b, hb, hbid, hbst⟩ := hK i h' hi
              by_cases hne : h' = x
              · subst hne
                rw [hget] at hb
                cases Option.some_inj.mp hb
                refine ⟨_, Arena.get_set_same _ _ _ (by rw [hget]; rfl),
                  hbid, hbst⟩
              · exact ⟨b, by
                  simp only
                  rw [Arena.get_set_ne _ _ _ _ hne]
                  exact hb, hbid, hbst⟩
            · intro h' hmem
              simp only at hmem
              rcases List.mem_append.mp hmem with hmem | hmem
              · obtain ⟨b, hb, hbs⟩ := hS h' hmem
                by_cases hne : h' = x
                · subst hne
                  refine ⟨_, Arena.get_set_same _ _ _ (by rw [hget]; rfl),
                    rfl⟩
                · exact ⟨b, by
                    simp only
                    rw [Arena.get_set_ne _ _ _ _ hne]
                    exact hb, hbs⟩
              · have hx : h' = x := by simpa using hmem
                subst hx
                refine ⟨_, Arena.get_set_same _ _ _ (by rw [hget]; rfl), rfl⟩
          · rw [if_neg hcond] at hstep
            cases Option.some_inj.mp hstep
            refine ⟨?_, ?_, rfl, rfl, rfl, rfl⟩
            · intro i h' hi
              simp only at hi
              obtain ⟨b, hb, hbid, hbst⟩ := hK i h' hi
              by_cases hne : h' = x
              · subst hne
                rw [hget] at hb
                cases Option.some_inj.mp hb
                refine ⟨_, Arena.get_set_same _ _ _ (by rw [hget]; rfl),
                  hbid, hbst⟩
              · exact ⟨b, by
                  simp only
                  rw [Arena.get_set_ne _ _ _ _ hne]
                  exact hb, hbid, hbst⟩
            · intro h' hmem
              simp only at hmem
              obtain ⟨b, hb, hbs⟩ := hS h' hmem
              by_cases hne : h' = x
              · subst hne
                rw [hget] at hb
                cases Option.some_inj.mp hb
                refine ⟨_, Arena.get_set_same _ _ _ (by rw [hget]; rfl), hbs⟩
              · exact ⟨b, by
                  simp only
                  rw [Arena.get_set_ne _ _ _ _ hne]
                  exact hb, hbs⟩
      obtain ⟨h1, h2, h3, h4, h5, h6⟩ := ih st1 st' hfold hmain.1 hmain.2.1
      exact ⟨h1, h2, h3.trans hmain.2.2.1, h4.trans hmain.2.2.2.1,
        h5.trans hmain.2.2.2.2.1, h6.trans hmain.2.2.2.2.2⟩

/-- The kinematic seeding fold only grows the traversal stack. -/
theorem kin_fold (cs : ColliderSet)
    (contacts_with : Index → Option (List (Index × Index × ContactPair))) :
    ∀ (l : List Index) (st st' : RigidBodySet),
      l.foldlM (kinStep cs contacts_with) st = some st' →
      ∃ stk, st' = { st with stack := stk } := by
  intro l
  induction l with
  | nil =>
    intro st st' hfold
    cases Option.some_inj.mp hfold
    exact ⟨st.stack, rfl⟩
  | cons x xs ih =>
    intro st st' hfold
    rw [List.foldlM_cons] at hfold
    cases hstep : kinStep cs contacts_with st x with
    | none => rw [hstep] at hfold; exact Option.noConfusion hfold
    | some st1 =>
      rw [hstep] at hfold
      rw [Option.bind_eq_bind, Option.some_bind] at hfold
      have hst1 : ∃ stk1, st1 = { st with stack := stk1 } := by
        unfold kinStep at hstep
        cases hget : st.bodies.get x with
        | none => rw [hget] at hstep; exact Option.noConfusion hstep
        | some rb =>
          rw [hget] at hstep
          simp only at hstep
          by_cases hmov : ¬rb.is_moving
          · rw [if_pos hmov] at hstep
            cases Option.some_inj.mp hstep
            exact ⟨st.stack, rfl⟩
          · rw [if_neg hmov] at hstep
            cases hpcc : push_contacting_colliders rb cs contacts_with with
            | none => rw [hpcc] at hstep; exact Option.noConfusion hstep
            | some pushes =>
              rw [hpcc] at hstep
              cases Option.some_inj.mp hstep
              exact ⟨pushes.reverse ++ st.stack, rfl⟩
      obtain ⟨stk1, hstk1⟩ := hst1
      subst hstk1
      obtain ⟨stk, hstk⟩ := ih _ st' hfold
      exact ⟨stk, by rw [hstk]⟩

/-- One commit step: the processed handle ends at `sleep()` of its current
body when that body was flagged sleeping, untouched otherwise; no other
body and no vector changes. -/
theorem commitStep_spec (st : RigidBodySet) (x : Index) (st1 : RigidBodySet)
    (hstep : commitStep st x = some st1) :
    (∃ b, st.bodies.get x = some b ∧
      st1.bodies.get x = some (if b.activation.sleeping then b.sleep else b) ∧
      (b.activation.sleeping = false → st1.bodies.get x = some b)) ∧
    (∀ h', h' ≠ x → st1.bodies.get h' = st.bodies.get h') ∧
    (∀ h, st1.bodies.get h = st.bodies.get h ∨
      ∃ b2, st.bodies.get h = some b2 ∧ b2.activation.sleeping = true ∧
        st1.bodies.get h = some b2.sleep) ∧
    st1.active_dynamic_set = st.active_dynamic_set ∧
    st1.active_kinematic_set = st.active_kinematic_set ∧
    st1.active_islands = st.active_islands ∧
    st1.can_sleep = st.can_sleep ∧
    st1.active_set_timestamp = st.active_set_timestamp := by
  unfold commitStep at hstep
  cases hget : st.bodies.get x with
  | none => rw [hget] at hstep; exact Option.noConfusion hstep
  | some b =>
    rw [hget] at hstep
    simp only at hstep
    by_cases hsleep : b.activation.sleeping = true
    · rw [if_pos hsleep] at hstep
      cases Option.some_inj.mp hstep
      have hx : (st.bodies.set x b.sleep).get x = some b.sleep :=
        Arena.get_set_same _ _ _ (by rw [hget]; rfl)
      have hne : ∀ h', h' ≠ x →
          (st.bodies.set x b.sleep).get h' = st.bodies.get h' :=
        fun h' hne => Arena.get_set_ne _ _ _ _ hne
      refine ⟨⟨b, by simp [hget], ?_, ?_⟩, hne, ?_, rfl, rfl, rfl, rfl, rfl⟩
      · rw [if_pos hsleep]
        exact hx
      · intro hcon
        rw [hcon] at hsleep
        exact absurd hsleep (by simp)
      · intro h
        by_cases hhx : h = x
        · subst hhx
          exact Or.inr ⟨b, hget, hsleep, hx⟩
        · exact Or.inl (hne h hhx)
    · rw [if_neg hsleep] at hstep
      cases Option.some_inj.mp hstep
      have hsf : b.activation.sleeping = false := by
        simpa using hsleep
      refine ⟨⟨b, by simp [hget], ?_, fun _ => by simp [hget]⟩,
        fun h' _ => rfl, fun h => Or.inl rfl, rfl, rfl, rfl, rfl, rfl⟩
      rw [hsf]
      simp only [Bool.false_eq_true, if_false]
      simp [hget]

/-- The commit-sleep fold: each listed handle ends exactly at
`sleep()` of its pre-commit body when that body was still flagged
sleeping, and untouched otherwise; every other body is either untouched or
slept from a sleeping state; no vector changes. -/
theorem commit_fold :
    ∀ (l : List Index) (st st' : RigidBodySet),
      l.foldlM commitStep st = some st' →
      (∀ h, st'.bodies.get h = st.bodies.get h ∨
        ∃ b, st.bodies.get h = some b ∧ b.activation.sleeping = true ∧
          st'.bodies.get h = some b.sleep) ∧
      (∀ h, h ∈ l → ∃ b, st.bodies.get h = some b ∧
        st'.bodies.get h =
          some (if b.activation.sleeping then b.sleep else b)) ∧
      st'.active_dynamic_set = st.active_dynamic_set ∧
      st'.active_kinematic_set = st.active_kinematic_set ∧
      st'.active_islands = st.active_islands ∧
      st'.can_sleep = st.can_sleep ∧
      st'.active_set_timestamp = st.active_set_timestamp := by
  intro l
  induction l with
  | nil =>
    intro st st' hfold
    cases Option.some_inj.mp hfold
    refine ⟨fun h => Or.inl rfl, ?_, rfl, rfl, rfl, rfl, rfl⟩
    intro h hmem
    exact absurd hmem (List.not_mem_nil h)
  | cons x xs ih =>
    intro st st' hfold
    rw [List.foldlM_cons] at hfold
    cases hstep : commitStep st x with
    | none => rw [hstep] at hfold; exact Option.noConfusion hfold
    | some st1 =>
      rw [hstep] at hfold
      rw [Option.bind_eq_bind, Option.some_bind] at hfold
      obtain ⟨hframe, hproc, hd, hk, hisl, hcs, hts⟩ := ih st1 st' hfold
      obtain ⟨⟨b, hgetb, hbx, hbxf⟩, hne1, hframe1, hd1, hk1, hisl1, hcs1,
        hts1⟩ := commitStep_spec st x st1 hstep
      refine ⟨?_, ?_, hd.trans hd1, hk.trans hk1, hisl.trans hisl1,
        hcs.trans hcs1, hts.trans hts1⟩
      · -- compose the two frames
        intro h
        rcases hframe h with hfr | ⟨b1, hb1, hb1s, hb1f⟩
        · rcases hframe1 h with hfr1 | ⟨b2, hb2, hb2s, hb2f⟩
          · exact Or.inl (hfr.trans hfr1)
          · exact Or.inr ⟨b2, hb2, hb2s, hfr.trans hb2f⟩
        · rcases hframe1 h with hfr1 | ⟨b2, hb2, hb2s, hb2f⟩
          · rw [hfr1] at hb1
            exact Or.inr ⟨b1, hb1, hb1s, hb1f⟩
          · rw [hb2f] at hb1
            cases Option.some_inj.mp hb1
            refine Or.inr ⟨b2, hb2, hb2s, ?_⟩
            rw [hb1f, sleep_idem]
      · intro h hmem
        rcases List.mem_cons.mp hmem with hhx | hxs
        · subst hhx
          refine ⟨b, hgetb, ?_⟩
          by_cases hsleep : b.activation.sleeping = true
          · rw [if_pos hsleep]
            rw [if_pos hsleep] at hbx
            rcases hframe h with hfr | ⟨b1, hb1, hb1s, hb1f⟩
            · rw [hfr]
              exact hbx
            · rw [hbx] at hb1
              cases Option.some_inj.mp hb1
              rw [hb1f, sleep_idem]
          · have hsf : b.activation.sleeping = false := by simpa using hsleep
            rw [hsf]
            simp only [Bool.false_eq_true, if_false]
            rcases hframe h with hfr | ⟨b1, hb1, hb1s, hb1f⟩
            · rw [hfr]
              exact hbxf hsf
            · rw [hbxf hsf] at hb1
              cases Option.some_inj.mp hb1
              rw [hb1s] at hsf
              exact absurd hsf (by simp)
        · obtain ⟨b1, hb1, hb1f⟩ := hproc h hxs
          by_cases hhx : h = x
          · subst hhx
            rw [hbx] at hb1
            refine ⟨b, hgetb, ?_⟩
            by_cases hsleep : b.activation.sleeping = true
            · rw [if_pos hsleep] at hb1 ⊢
              cases Option.some_inj.mp hb1
              simpa [sleep_sleeping, sleep_idem] using hb1f
            · rw [if_neg hsleep] at hb1 ⊢
              cases Option.some_inj.mp hb1
              simpa [hsleep] using hb1f
          · rw [hne1 h hhx] at hb1
            exact ⟨b1, hb1, hb1f⟩

/-- The state built by one visit of the traversal loop satisfies all the
loop invariants: the visited body is freshly stamped, awake, appended at
the end of the dynamic vector, and the island boundaries stay well
shaped. -/
theorem visit_state_inv (ts : Nat) (st : RigidBodySet) (handle : Index)
    (rb : RigidBody) (islands1 : List Nat) (stk : List Index)
    (islandStart : Nat)
    (hts : st.active_set_timestamp = ts)
    (hget : st.bodies.get handle = some rb)
    (hnts : rb.active_set_timestamp ≠ ts)
    (hdyn : rb.body_status = BodyStatus.Dynamic)
    (hTD : TravDyn ts st) (hK : KinOk st) (hS : SleepCS st)
    (hhead : islands1.head? = some 0)
    (hchain : List.Chain' (· < ·) islands1)
    (hlast : ∃ lb, islands1.getLast? = some lb ∧
      lb ≤ st.active_dynamic_set.length) :
    TravDyn ts { st with
      bodies := st.bodies.set handle
        { rb.wake_up false with
          active_island_id := islands1.length - 1,
          active_set_id := st.active_dynamic_set.length,
          active_set_offset := st.active_dynamic_set.length - islandStart,
          active_set_timestamp := st.active_set_timestamp },
      active_dynamic_set := st.active_dynamic_set ++ [handle],
      active_islands := islands1,
      stack := stk } ∧
    KinOk { st with
      bodies := st.bodies.set handle
        { rb.wake_up false with
          active_island_id := islands1.length - 1,
          active_set_id := st.active_dynamic_set.length,
          active_set_offset := st.active_dynamic_set.length - islandStart,
          active_set_timestamp := st.active_set_timestamp },
      active_dynamic_set := st.active_dynamic_set ++ [handle],
      active_islands := islands1,
      stack := stk } ∧
    IslandsOk { st with
      bodies := st.bodies.set handle
        { rb.wake_up false with
          active_island_id := islands1.length - 1,
          active_set_id := st.active_dynamic_set.length,
          active_set_offset := st.active_dynamic_set.length - islandStart,
          active_set_timestamp := st.active_set_timestamp },
      active_dynamic_set := st.active_dynamic_set ++ [handle],
      active_islands := islands1,
      stack := stk } ∧
    SleepCS { st with
      bodies := st.bodies.set handle
        { rb.wake_up false with
          active_island_id := islands1.length - 1,
          active_set_id := st.active_dynamic_set.length,
          active_set_offset := st.active_dynamic_set.length - islandStart,
          active_set_timestamp := st.active_set_timestamp },
      active_dynamic_set := st.active_dynamic_set ++ [handle],
      active_islands := islands1,
      stack := stk } := by
  set rb2 : RigidBody :=
    { rb.wake_up false with
      active_island_id := islands1.length - 1,
      active_set_id := st.active_dynamic_set.length,
      active_set_offset := st.active_dynamic_set.length - islandStart,
      active_set_timestamp := st.active_set_timestamp } with hrb2
  have hnotmemD : handle ∉ st.active_dynamic_set := by
    intro hmem
    obtain ⟨j, hj⟩ := List.mem_iff_getElem?.mp hmem
    obtain ⟨b, hb, _, _, hbts, _⟩ := hTD j handle hj
    rw [hget] at hb
    cases Option.some_inj.mp hb
    exact hnts hbts
  have hnotmemK : handle ∉ st.active_kinematic_set := by
    intro hmem
    obtain ⟨j, hj⟩ := List.mem_iff_getElem?.mp hmem
    obtain ⟨b, hb, _, hbst⟩ := hK j handle hj
    rw [hget] at hb
    cases Option.some_inj.mp hb
    rw [hdyn] at hbst
    exact absurd hbst (by simp)
  have hgetset : (st.bodies.set handle rb2).get handle = some rb2 :=
    Arena.get_set_same _ _ _ (by rw [hget]; rfl)
  have hgetother : ∀ h', h' ≠ handle →
      (st.bodies.set handle rb2).get h' = st.bodies.get h' :=
    fun h' hne => Arena.get_set_ne _ _ _ _ hne
  refine ⟨?_, ?_, ?_, ?_⟩
  · intro i h' hi
    simp only at hi
    rcases getElem?_append_last hi with ⟨hlt, hold⟩ | ⟨hieq, heq⟩
    · obtain ⟨b, hb, hbid, hbst, hbts, hbsl⟩ := hTD i h' hold
      have hne : h' ≠ handle := fun hc => hnotmemD (hc ▸ List.getElem?_mem hold)
      exact ⟨b, by simp only; rw [hgetother h' hne]; exact hb,
        hbid, hbst, hbts, hbsl⟩
    · subst hieq
      subst heq
      exact ⟨rb2, by simp only; exact hgetset, rfl, hdyn, hts, rfl⟩
  · intro i h' hi
    simp only at hi
    obtain ⟨b, hb, hbid, hbst⟩ := hK i h' hi
    have hne : h' ≠ handle := fun hc => hnotmemK (hc ▸ List.getElem?_mem hi)
    exact ⟨b, by simp only; rw [hgetother h' hne]; exact hb, hbid, hbst⟩
  · obtain ⟨lb, hlb, hlble⟩ := hlast
    refine ⟨hhead, hchain, lb, hlb, ?_, ?_⟩
    · simp only [List.length_append]
      omega
    · intro hcon
      exfalso
      simp only [List.length_append, List.length_cons, List.length_nil]
        at hcon
      omega
  · intro h hmem
    simp only at hmem
    obtain ⟨b, hb, hdisj⟩ := hS h hmem
    by_cases hne : h = handle
    · subst hne
      refine ⟨rb2, by simp only; exact hgetset, Or.inr ?_⟩
      simp only
      exact List.mem_append.mpr (Or.inr (by simp))
    · refine ⟨b, by simp only; rw [hgetother h hne]; exact hb, ?_⟩
      rcases hdisj with hsl | hmemd
      · exact Or.inl hsl
      · exact Or.inr (by
          simp only
          exact List.mem_append.mpr (Or.inl hmemd))

/-- Master invariant lemma of the traversal loop: a completed run keeps
the timestamped-dynamic-vector, kinematic, island-shape and
sleep-candidate invariants, and never touches `can_sleep`. -/
theorem traverseLoop_inv (cs : ColliderSet)
    (contacts_with : Index → Option (List (Index × Index × ContactPair)))
    (joint_graph : Nat → List (Index × Index)) (min_island_size : Nat)
    (hmin : 1 ≤ min_island_size) (ts : Nat) :
    ∀ (fuel : Nat) (st : RigidBodySet) (marker : Nat) (st' : RigidBodySet),
      traverseLoop cs contacts_with joint_graph min_island_size fuel st marker
        = some st' →
      st.active_set_timestamp = ts →
      TravDyn ts st → KinOk st → IslandsOk st → SleepCS st →
      st'.active_set_timestamp = ts ∧ TravDyn ts st' ∧ KinOk st' ∧
        IslandsOk st' ∧ SleepCS st' ∧ st'.can_sleep = st.can_sleep := by
  intro fuel
  induction fuel with
  | zero =>
    intro st marker st' hrun hts hTD hK hI hS
    unfold traverseLoop at hrun
    cases hstk : st.stack with
    | nil =>
      simp only [hstk] at hrun
      cases Option.some_inj.mp hrun
      exact ⟨hts, hTD, hK, hI, hS, rfl⟩
    | cons handle rest =>
      simp only [hstk] at hrun
      exact Option.noConfusion hrun
  | succ n ih =>
    intro st marker st' hrun hts hTD hK hI hS
    unfold traverseLoop at hrun
    cases hstk : st.stack with
    | nil =>
      simp only [hstk] at hrun
      cases Option.some_inj.mp hrun
      exact ⟨hts, hTD, hK, hI, hS, rfl⟩
    | cons handle rest =>
      simp only [hstk] at hrun
      cases hget : st.bodies.get handle with
      | none =>
        simp only [hget] at hrun
        exact Option.noConfusion hrun
      | some rb =>
        simp only [hget] at hrun
        by_cases hgate : rb.active_set_timestamp = st.active_set_timestamp ∨
            ¬rb.is_dynamic = true
        · rw [if_pos hgate] at hrun
          obtain ⟨h1, h2, h3, h4, h5, h6⟩ :=
            ih { st with stack := rest } marker st' hrun hts hTD hK hI hS
          exact ⟨h1, h2, h3, h4, h5, h6⟩
        · rw [if_neg hgate] at hrun
          push_neg at hgate
          have hnts : rb.active_set_timestamp ≠ ts := hts ▸ hgate.1
          have hdyn : rb.body_status = BodyStatus.Dynamic := by
            have := hgate.2
            unfold RigidBody.is_dynamic at this
            simpa using this
          obtain ⟨hhead, hchain, lastB, hlastB, hlble, hcond⟩ := hI
          -- resolve the island-boundary bookkeeping
          have hresolve : ∃ islands1 marker2,
              (if rest.length < marker then
                match st.active_islands.getLast? with
                | none => none
                | some lastB2 =>
                  if min_island_size ≤
                      st.active_dynamic_set.length - lastB2 then
                    some (st.active_islands ++
                      [st.active_dynamic_set.length], rest.length)
                  else some (st.active_islands, rest.length)
              else some (st.active_islands, marker) :
                Option (List Nat × Nat)) = some (islands1, marker2) ∧
              islands1.head? = some 0 ∧ List.Chain' (· < ·) islands1 ∧
              (∃ lb, islands1.getLast? = some lb ∧
                lb ≤ st.active_dynamic_set.length) := by
            by_cases hm : rest.length < marker
            · rw [if_pos hm]
              simp only [hlastB]
              by_cases hguard : min_island_size ≤
                  st.active_dynamic_set.length - lastB
              · rw [if_pos hguard]
                refine ⟨st.active_islands ++ [st.active_dynamic_set.length],
                  rest.length, rfl, ?_, ?_, ?_⟩
                · cases hisl : st.active_islands with
                  | nil => rw [hisl] at hhead; exact Option.noConfusion hhead
                  | cons a tl =>
                    rw [hisl] at hhead
                    simp only [List.head?_cons] at hhead
                    simp [Option.some_inj.mp hhead]
                · rw [List.chain'_append]
                  refine ⟨hchain, List.chain'_singleton _, ?_⟩
                  intro x hx y hy
                  rw [hlastB] at hx
                  cases Option.some_inj.mp (by simpa using hx.symm)
                  simp only [List.head?_cons, Option.mem_def] at hy
                  cases Option.some_inj.mp hy.symm
                  omega
                · exact ⟨st.active_dynamic_set.length,
                    List.getLast?_concat _, le_refl _⟩
              · rw [if_neg hguard]
                exact ⟨st.active_islands, rest.length, rfl, hhead, hchain,
                  lastB, hlastB, hlble⟩
            · rw [if_neg hm]
              exact ⟨st.active_islands, marker, rfl, hhead, hchain,
                lastB, hlastB, hlble⟩
          obtain ⟨islands1, marker2, hres, hhead1, hchain1, hlast1⟩ :=
            hresolve
          rw [hres] at hrun
          simp only at hrun
          obtain ⟨lb1, hlb1, hlb1le⟩ := hlast1
          rw [hlb1] at hrun
          simp only at hrun
          cases hpcc : push_contacting_colliders
              { rb.wake_up false with
                active_island_id := islands1.length - 1,
                active_set_id := st.active_dynamic_set.length,
                active_set_offset := st.active_dynamic_set.length - lb1,
                active_set_timestamp := st.active_set_timestamp }
              cs contacts_with with
          | none =>
            simp only [hpcc] at hrun
            exact Option.noConfusion hrun
          | some contactPushes =>
            simp only [hpcc] at hrun
            have hvisit := visit_state_inv ts { st with stack := rest }
              handle rb islands1
              ((contactPushes ++
                (joint_graph rb.joint_graph_index).map
                  (fun e => other_handle e handle)).reverse ++ rest)
              lb1 hts hget hnts hdyn hTD hK hS hhead1 hchain1
              ⟨lb1, hlb1, hlb1le⟩
            obtain ⟨h1, h2, h3, h4, h5, h6⟩ := ih _ marker2 st' hrun hts
              hvisit.1 hvisit.2.1 hvisit.2.2.1 hvisit.2.2.2
            exact ⟨h1, h2, h3, h4, h5, h6⟩

theorem sleep_active_set_id (b : RigidBody) :
    b.sleep.active_set_id = b.active_set_id := rfl

theorem sleep_body_status (b : RigidBody) :
    b.sleep.body_status = b.body_status := rfl

/-- Master postcondition of `update_active_set_with_contacts`: the
active-set invariant is preserved, the island boundaries are monotone
(strictly so when any body ended up active, and exactly `[0, 0]` when
none), and the sleep commitment is exact: unreached candidates are slept
(zero velocity, cleared energy), reached candidates are awake in the
dynamic vector. -/
theorem update_master (s : RigidBodySet) (cs : ColliderSet)
    (contacts_with : Index → Option (List (Index × Index × ContactPair)))
    (joint_graph : Nat → List (Index × Index)) (min_island_size : Nat)
    (updE : RigidBody → ℚ) (fuel : Nat) (s' : RigidBodySet)
    (hInv : InvFull s)
    (hupd : s.update_active_set_with_contacts cs contacts_with joint_graph
      min_island_size updE fuel = some s') :
    InvFull s' ∧
    s'.active_islands.head? = some 0 ∧
    s'.active_islands.getLast? = some s'.active_dynamic_set.length ∧
    List.Chain' (· ≤ ·) s'.active_islands ∧
    (s'.active_dynamic_set ≠ [] →
      List.Chain' (· < ·) s'.active_islands) ∧
    (s'.active_dynamic_set = [] → s'.active_islands = [0, 0]) ∧
    (∀ h, h ∈ s'.can_sleep →
      (h ∉ s'.active_dynamic_set → ∃ b, s'.bodies.get h = some b ∧
        b.activation.sleeping = true ∧ b.linvel = 0 ∧ b.angvel = 0 ∧
        b.activation.energy = 0) ∧
      (h ∈ s'.active_dynamic_set → ∃ b, s'.bodies.get h = some b ∧
        b.activation.sleeping = false)) := by
  have hmin0 : ¬min_island_size = 0 := by
    intro hc
    unfold update_active_set_with_contacts at hupd
    rw [if_pos hc] at hupd
    exact Option.noConfusion hupd
  unfold update_active_set_with_contacts at hupd
  rw [if_neg hmin0] at hupd
  simp only at hupd
  cases hdr : (s.active_dynamic_set.reverse).foldlM (drainStep updE)
      { s with
        active_set_timestamp := s.active_set_timestamp + 1,
        stack := [], can_sleep := [], active_dynamic_set := [] } with
  | none =>
    rw [hdr] at hupd
    exact Option.noConfusion hupd
  | some s2 =>
    rw [hdr] at hupd
    simp only at hupd
    have hdrain := drain_fold updE (s.active_dynamic_set.reverse) _ s2 hdr
      (fun i h hi => kin_elim hInv hi)
      (fun h hmem => absurd hmem (List.not_mem_nil h))
    obtain ⟨hK2, hS02, hdyn2, hisl2, hts2, hkin2⟩ := hdrain
    cases hkf : s2.active_kinematic_set.foldlM (kinStep cs contacts_with)
        s2 with
    | none =>
      rw [hkf] at hupd
      exact Option.noConfusion hupd
    | some s3 =>
      rw [hkf] at hupd
      simp only at hupd
      obtain ⟨stk3, hs3⟩ := kin_fold cs contacts_with _ s2 s3 hkf
      subst hs3
      cases htr : traverseLoop cs contacts_with joint_graph min_island_size
          fuel { { s2 with stack := stk3 } with active_islands := [0] }
          (max ({ s2 with stack := stk3 } : RigidBodySet).stack.length 1 - 1)
          with
      | none =>
        rw [htr] at hupd
        exact Option.noConfusion hupd
      | some s5 =>
        rw [htr] at hupd
        simp only at hupd
        have hts4 : ({ { s2 with stack := stk3 } with
            active_islands := [0] } : RigidBodySet).active_set_timestamp
            = s.active_set_timestamp + 1 := hts2
        have hTD4 : TravDyn (s.active_set_timestamp + 1)
            { { s2 with stack := stk3 } with active_islands := [0] } := by
          intro i h hi
          simp only at hi
          rw [hdyn2] at hi
          simp at hi
        have hK4 : KinOk { { s2 with stack := stk3 } with
            active_islands := [0] } := hK2
        have hI4 : IslandsOk { { s2 with stack := stk3 } with
            active_islands := [0] } := by
          refine ⟨rfl, List.chain'_singleton _, 0, rfl, ?_, ?_⟩
          · simp
          · intro _
            refine ⟨rfl, ?_⟩
            simp only
            rw [hdyn2]
        have hS4 : SleepCS { { s2 with stack := stk3 } with
            active_islands := [0] } := by
          intro h hmem
          obtain ⟨b, hb, hbs⟩ := hS02 h hmem
          exact ⟨b, hb, Or.inl hbs⟩
        obtain ⟨hts5, hTD5, hK5, hI5, hS5, hcs5⟩ :=
          traverseLoop_inv cs contacts_with joint_graph min_island_size
            (by omega) (s.active_set_timestamp + 1) fuel _ _ s5 htr hts4
            hTD4 hK4 hI4 hS4
        -- the final island boundary and the sleep commit
        obtain ⟨hframe, hproc, hd, hk, hisl, hcsl, hts'⟩ :=
          commit_fold _ _ s' hupd
        obtain ⟨hhead5, hchain5, lastB5, hlast5, hle5, hcond5⟩ := hI5
        have hdval : s'.active_dynamic_set = s5.active_dynamic_set := hd
        have hislval : s'.active_islands =
            s5.active_islands ++ [s5.active_dynamic_set.length] := hisl
        have hcslval : s'.can_sleep = s5.can_sleep := hcsl
        have hisl5ne : s5.active_islands ≠ [] := by
          intro hc
          rw [hc] at hhead5
          exact Option.noConfusion hhead5
        refine ⟨?_, ?_, ?_, ?_, ?_, ?_, ?_⟩
        · -- InvFull s'
          apply InvFull_intro
          · intro i h hi
            rw [hdval] at hi
            obtain ⟨b, hb, hbid, hbst, _, _⟩ := hTD5 i h hi
            rcases hframe h with hfr | ⟨b2, hb2, hb2s, hb2f⟩
            · exact ⟨b, hfr.trans hb, hbid, Or.inl hbst⟩
            · rw [hb] at hb2
              cases Option.some_inj.mp hb2
              exact ⟨b.sleep, hb2f, hbid, Or.inl hbst⟩
          · intro i h hi
            rw [hk] at hi
            obtain ⟨b, hb, hbid, hbst⟩ := hK5 i h hi
            rcases hframe h with hfr | ⟨b2, hb2, hb2s, hb2f⟩
            · exact ⟨b, hfr.trans hb, hbid, hbst⟩
            · rw [hb] at hb2
              cases Option.some_inj.mp hb2
              exact ⟨b.sleep, hb2f, hbid, hbst⟩
        · rw [hislval]
          rw [List.head?_append]
          rw [hhead5]
          rfl
        · rw [hislval, hdval]
          exact List.getLast?_concat _
        · rw [hislval]
          rw [List.chain'_append]
          refine ⟨hchain5.imp (fun a b hab => le_of_lt hab), ?_, ?_⟩
          · exact List.chain'_singleton _
          · intro x hx y hy
            rw [hlast5] at hx
            cases Option.some_inj.mp (by simpa using hx.symm)
            simp only [List.head?_cons, Option.mem_def] at hy
            cases Option.some_inj.mp hy.symm
            omega
        · intro hne
          rw [hislval]
          rw [List.chain'_append]
          refine ⟨hchain5, List.chain'_singleton _, ?_⟩
          intro x hx y hy
          rw [hlast5] at hx
          cases Option.some_inj.mp (by simpa using hx.symm)
          simp only [List.head?_cons, Option.mem_def] at hy
          cases Option.some_inj.mp hy.symm
          rw [hdval] at hne
          have hlen : 0 < s5.active_dynamic_set.length :=
            List.length_pos.mpr hne
          by_cases hceq : lastB5 = s5.active_dynamic_set.length
          · obtain ⟨_, hdnil⟩ := hcond5 hceq
            rw [hdnil] at hlen
            simp at hlen
          · omega
        · intro hnil
          rw [hdval] at hnil
          have hlen0 : s5.active_dynamic_set.length = 0 := by
            rw [hnil]
            rfl
          have hceq : lastB5 = s5.active_dynamic_set.length := by omega
          obtain ⟨hisl0, _⟩ := hcond5 hceq
          rw [hislval, hisl0, hlen0]
          rfl
        · intro h hmem
          rw [hcslval] at hmem
          obtain ⟨b0, hb0, hb0f⟩ := hproc h (by
            simpa using hmem)
          obtain ⟨b1, hb1, hdisj⟩ := hS5 h hmem
          rw [hb1] at hb0
          have hbeq : b1 = b0 := Option.some_inj.mp hb0
          subst hbeq
          constructor
          · intro hnotmem
            rw [hdval] at hnotmem
            have hsl : b1.activation.sleeping = true := by
              rcases hdisj with hsl | hmemd
              · exact hsl
              · exact absurd hmemd hnotmem
            rw [hsl] at hb0f
            simp only [if_true] at hb0f
            exact ⟨b1.sleep, hb0f, rfl, rfl, rfl, rfl⟩
          · intro hmemd
            rw [hdval] at hmemd
            obtain ⟨j, hj⟩ := List.mem_iff_getElem?.mp hmemd
            obtain ⟨b2, hb2, _, _, _, hb2sl⟩ := hTD5 j h hj
            rw [hb1] at hb2
            have hbeq2 : b1 = b2 := Option.some_inj.mp hb2
            subst hbeq2
            rw [hb2sl] at hb0f
            simp only [Bool.false_eq_true, if_false] at hb0f
            exact ⟨b1, hb0f, hb2sl⟩

end RigidBodySet

/-! ## Concrete instances used by witnesses and counterexamples -/

def noContacts : Index → Option (List (Index × Index × ContactPair)) :=
  fun _ => none

def noJoints : Nat → List (Index × Index) := fun _ => []

def zeroEnergy : RigidBody → ℚ := fun _ => 0

/-- A dynamic, awake body whose energy update will fall below its
threshold (spec scenario 1, sleep-wake round trip). -/
def restingBody : RigidBody :=
  { body_status := BodyStatus.Dynamic
    activation := { energy := 1, threshold := 1, sleeping := false }
    linvel := 1
    angvel := 0
    active_island_id := 0
    active_set_id := 0
    active_set_offset := 0
    active_set_timestamp := 0
    colliders := []
    joint_graph_index := 0 }

/-- A dynamic body inserted with its sleeping flag already set. -/
def sleepingBody : RigidBody :=
  { restingBody with
    activation := { energy := 0, threshold := 1, sleeping := true } }

def restingSet : RigidBodySet := (RigidBodySet.new.insert restingBody).2

/-- The state `restingSet` reaches after one contactless
`update_active_set_with_contacts`: the body committed to sleep. -/
def restingAfter : RigidBodySet :=
  { bodies := ⟨[⟨0, some
      { body_status := BodyStatus.Dynamic
        activation := { energy := 0, threshold := 1, sleeping := true }
        linvel := 0
        angvel := 0
        active_island_id := 0
        active_set_id := 0
        active_set_offset := 0
        active_set_timestamp := 0
        colliders := []
        joint_graph_index := 0 }⟩]⟩
    active_dynamic_set := []
    active_kinematic_set := []
    modified_inactive_set := []
    active_islands := [0, 0]
    active_set_timestamp := 1
    can_sleep := [⟨0, 0⟩]
    stack := []
    sent := [] }

/-- The state the empty body set reaches after one
`update_active_set_with_contacts`: no islands content, boundaries
`[0, 0]`. -/
def emptyAfter : RigidBodySet :=
  { bodies := ⟨[]⟩
    active_dynamic_set := []
    active_kinematic_set := []
    modified_inactive_set := []
    active_islands := [0, 0]
    active_set_timestamp := 1
    can_sleep := []
    stack := []
    sent := [] }

def unitAabb : AABB := ⟨⟨0, 0⟩, ⟨1, 1⟩⟩

/-- A collider attached to the body at slot 0. -/
def wColl : Collider := { parent := ⟨0, 0⟩, proxy_index := 7, aabb := unitAabb }

def wCollSet : ColliderSet :=
  { removed_colliders := [], colliders := ⟨[⟨0, some wColl⟩]⟩ }

/-- A SIMD lane test that reports a hit on every lane — the behaviour the
spec warns about for invalid lanes. -/
def allHit : WAABB → AABB → Fin 4 → Bool := fun _ _ _ => true

def allRayHit : WAABB → WQuadtree.Ray → ℚ → Fin 4 → Bool :=
  fun _ _ _ _ => true

/-- A tree state whose root stores the child index `1 = nodes.len()`: the
source's `<=` guard admits it onto the traversal stack, and the next pop
indexes out of bounds. -/
def guardTree : WQuadtree Nat :=
  { nodes := [{
      waabb := WAABB.new_invalid
      children := ![1, u32Max, u32Max, u32Max]
      parent := NodeIndex.invalid
      leaf := false
      dirty := false }]
    dirty_nodes := []
    proxies := [] }

def identData20 : List (Nat × AABB) := (List.range 20).map (fun i => (i, unitAabb))

/-- The tree built from 20 proxies with identical AABBs (spec scenario
5). -/
def identTree20 : WQuadtree Nat :=
  WQuadtree.mk_new.clear_and_rebuild u32Max (fun i => i) identData20 id

/-- The traversal loop of `intersect_aabb` in the words of the
specification: identical to `intersect_aabb_loop` except that an internal
child is pushed only when `children[lane] < nodes.len()` (the
specification's guard), not `<=` as in the source. -/
def claim_intersect_aabb_loop (hit : WAABB → AABB → Fin 4 → Bool)
    (qt : WQuadtree Nat) (aabb : AABB) :
    Nat → List Nat → List Nat → Option (List Nat)
  | 0, stack, out => match stack with | [] => some out | _ :: _ => none
  | fuel + 1, stack, out =>
    match stack with
    | [] => some out
    | inode :: rest =>
      match qt.nodes[inode]? with
      | none => none
      | some node =>
        let emitted := (List.finRange 4).foldl
          (fun acc ii =>
            if hit node.waabb aabb ii ∧ node.leaf then
              match qt.proxies[node.children ii]? with
              | some proxy => acc ++ [proxy.data]
              | none => acc
            else acc) []
        let pushed := (List.finRange 4).foldl
          (fun acc ii =>
            if hit node.waabb aabb ii ∧ ¬node.leaf ∧
                node.children ii < qt.nodes.length then
              acc ++ [node.children ii]
            else acc) []
        claim_intersect_aabb_loop hit qt aabb fuel
          (pushed.reverse ++ rest) (out ++ emitted)

/-- `intersect_aabb` under the specification's `<` push guard. -/
def claim_intersect_aabb (hit : WAABB → AABB → Fin 4 → Bool)
    (qt : WQuadtree Nat) (aabb : AABB) (fuel : Nat) : Option (List Nat) :=
  if qt.nodes.isEmpty then some []
  else claim_intersect_aabb_loop hit qt aabb fuel [0] []

/-- The traversal loop of `cast_ray` in the words of the specification,
with the `<` push guard. -/
def claim_cast_ray_loop (rayHit : WAABB → WQuadtree.Ray → ℚ → Fin 4 → Bool)
    (qt : WQuadtree Nat) (ray : WQuadtree.Ray) (max_toi : ℚ) :
    Nat → List Nat → List Nat → Option (List Nat)
  | 0, stack, out => match stack with | [] => some out | _ :: _ => none
  | fuel + 1, stack, out =>
    match stack with
    | [] => some out
    | inode :: rest =>
      match qt.nodes[inode]? with
      | none => none
      | some node =>
        let emitted := (List.finRange 4).foldl
          (fun acc ii =>
            if rayHit node.waabb ray max_toi ii ∧ node.leaf then
              match qt.proxies[node.children ii]? with
              | some proxy => acc ++ [proxy.data]
              | none => acc
            else acc) []
        let pushed := (List.finRange 4).foldl
          (fun acc ii =>
            if rayHit node.waabb ray max_toi ii ∧ ¬node.leaf ∧
                node.children ii < qt.nodes.length then
              acc ++ [node.children ii]
            else acc) []
        claim_cast_ray_loop rayHit qt ray max_toi fuel
          (pushed.reverse ++ rest) (out ++ emitted)

/-- `cast_ray` under the specification's `<` push guard. -/
def claim_cast_ray (rayHit : WAABB → WQuadtree.Ray → ℚ → Fin 4 → Bool)
    (qt : WQuadtree Nat) (ray : WQuadtree.Ray) (max_toi : ℚ) (fuel : Nat) :
    Option (List Nat) :=
  if qt.nodes.isEmpty then some []
  else claim_cast_ray_loop rayHit qt ray max_toi fuel [0] []

/-- The per-lane recomputation of one `WQuadtree::update` iteration in the
words of the specification: a leaf lane reads the proxy's collider
`compute_aabb()` (the `colliders` observer map; a dead handle is the
indexing panic), an internal lane reads the child node's
`waabb.to_merged_aabb()`, and a lane with no child keeps the invalid
AABB. -/
def claimLane {T : Type} (colliders : T → Option AABB) (qt : WQuadtree T)
    (node : WQuadtreeNode) (i : Fin 4) : Option AABB :=
  if node.leaf then
    match qt.proxies[node.children i]? with
    | some proxy => colliders proxy.data
    | none => some AABB.new_invalid
  else
    match qt.nodes[node.children i]? with
    | some child => some (WAABB.to_merged_aabb child.waabb)
    | none => some AABB.new_invalid

/-- One `WQuadtree::update` iteration on a live node, characterized by the
per-lane recomputation `claimLane`: when all four lanes recompute, the
iteration clears the dirty flag, and replaces the packed AABB (dilated)
and enqueues the parent exactly when the stored pack does not contain the
candidate in all four lanes. -/
theorem update_iter_spec {T : Type} (colliders : T → Option AABB)
    (dilate : WAABB → WAABB) (qt : WQuadtree T) (id : Nat)
    (node : WQuadtreeNode) (hnode : qt.nodes[id]? = some node)
    (new_waabb : WAABB)
    (hlane : ∀ i, claimLane colliders qt node i = some (new_waabb i)) :
    WQuadtree.update_iter colliders dilate qt id =
      (if node.waabb.contains_all new_waabb then
        some { qt with nodes := qt.nodes.set id { node with dirty := false } }
      else
        some { qt with
          nodes := qt.nodes.set id
            { node with waabb := dilate new_waabb, dirty := false },
          dirty_nodes := qt.dirty_nodes ++ [node.parent.index] }) := by
  have hl : ∀ i : Fin 4,
      (if node.leaf then
        match qt.proxies[node.children i]? with
        | some proxy =>
          match colliders proxy.data with
          | some aabb => some aabb
          | none => none
        | none => some AABB.new_invalid
      else
        match qt.nodes[node.children i]? with
        | some child => some (WAABB.to_merged_aabb child.waabb)
        | none => some AABB.new_invalid) = some (new_waabb i) := by
    intro i
    have h := hlane i
    unfold claimLane at h
    by_cases hleaf : node.leaf
    · rw [if_pos hleaf] at h ⊢
      cases hp : qt.proxies[node.children i]? with
      | none => simp only [hp] at h ⊢; exact h
      | some proxy =>
        simp only [hp] at h ⊢
        rw [h]
    · rw [if_neg hleaf] at h ⊢
      exact h
  have heta : (![new_waabb 0, new_waabb 1, new_waabb 2, new_waabb 3] : WAABB)
      = new_waabb := by
    funext i
    fin_cases i <;> rfl
  unfold WQuadtree.update_iter
  rw [hnode]
  simp only
  split
  · rename_i a0 a1 a2 a3 h0 h1 h2 h3
    have e0 : a0 = new_waabb 0 :=
      Option.some_inj.mp (Eq.trans (Eq.symm h0) (hl 0))
    have e1 : a1 = new_waabb 1 :=
      Option.some_inj.mp (Eq.trans (Eq.symm h1) (hl 1))
    have e2 : a2 = new_waabb 2 :=
      Option.some_inj.mp (Eq.trans (Eq.symm h2) (hl 2))
    have e3 : a3 = new_waabb 3 :=
      Option.some_inj.mp (Eq.trans (Eq.symm h3) (hl 3))
    subst e0 e1 e2 e3
    rw [heta]
  · rename_i hbad
    exfalso
    exact hbad (new_waabb 0) (new_waabb 1) (new_waabb 2) (new_waabb 3)
      (hl 0) (hl 1) (hl 2) (hl 3)

def bigAabb : AABB := ⟨⟨-1, -1⟩, ⟨2, 2⟩⟩

/-- A dirty leaf node whose four lanes all have live proxies. -/
def dirtyLeafNode : WQuadtreeNode :=
  { waabb := ![unitAabb, unitAabb, unitAabb, unitAabb]
    children := ![0, 1, 2, 3]
    parent := ⟨7, 0⟩
    leaf := true
    dirty := true }

/-- A one-node tree whose leaf sits at the front of the dirty queue. -/
def dirtyLeafTree : WQuadtree Nat :=
  { nodes := [dirtyLeafNode]
    dirty_nodes := [0]
    proxies := [⟨⟨0, 0⟩, 10⟩, ⟨⟨0, 1⟩, 11⟩, ⟨⟨0, 2⟩, 12⟩, ⟨⟨0, 3⟩, 13⟩] }

/-- A collider observer under which the collider of proxy data 10 has
moved out of its stored lane AABB. -/
def movedColliders : Nat → Option AABB := fun d =>
  if d = 10 then some bigAabb else some unitAabb

/-! ## The claims -/

/-- C7: a scoped mutable body view sends its handle on the activation
channel exactly when the body was sleeping when the view was created and
is awake at release; no other entry/exit combination sends anything. -/
theorem rigid_body_mut_drop_sends_iff (handle : Index)
    (rbEntry rbExit : RigidBody) (sent : List Index) :
    (RigidBodyMut.mk_new handle rbEntry).drop rbExit sent =
      (if rbEntry.is_sleeping = true ∧ rbExit.is_sleeping = false then
        sent ++ [handle]
      else sent) ∧
    ((RigidBodyMut.mk_new handle rbEntry).drop rbExit sent ≠ sent ↔
      rbEntry.is_sleeping = true ∧ rbExit.is_sleeping = false) := by
  have hmain : (RigidBodyMut.mk_new handle rbEntry).drop rbExit sent =
      (if rbEntry.is_sleeping = true ∧ rbExit.is_sleeping = false then
        sent ++ [handle]
      else sent) := by
    unfold RigidBodyMut.drop RigidBodyMut.mk_new
    simp only
    by_cases h1 : rbEntry.is_sleeping = true
    · by_cases h2 : rbExit.is_sleeping = false
      · rw [if_pos ⟨h1, by simp [h2]⟩, if_pos ⟨h1, h2⟩]
      · have h2t : rbExit.is_sleeping = true := by
          cases hc : rbExit.is_sleeping
          · exact absurd hc h2
          · rfl
        rw [if_neg (by simp [h2t]), if_neg (by simp [h2t])]
    · rw [if_neg (by simp [h1]), if_neg (by simp [h1])]
  refine ⟨hmain, ?_⟩
  constructor
  · intro hne
    by_contra hcon
    rw [hmain, if_neg hcon] at hne
    exact hne rfl
  · intro hcond
    rw [hmain, if_pos hcond]
    intro hc
    have := congrArg List.length hc
    simp at this

/-- C9: inserting a dynamic body whose sleeping flag is set changes none
of `active_dynamic_set`, `active_kinematic_set`,
`modified_inactive_set`. -/
theorem insert_sleeping_dynamic_inactive (s : RigidBodySet) (rb : RigidBody)
    (hdyn : rb.body_status = BodyStatus.Dynamic)
    (hsleep : rb.activation.sleeping = true) :
    (s.insert rb).2.active_dynamic_set = s.active_dynamic_set ∧
    (s.insert rb).2.active_kinematic_set = s.active_kinematic_set ∧
    (s.insert rb).2.modified_inactive_set = s.modified_inactive_set := by
  unfold RigidBodySet.insert
  have hsl : rb.reset_internal_references.is_sleeping = true := by
    unfold RigidBody.is_sleeping RigidBody.reset_internal_references
    exact hsleep
  have hk : rb.reset_internal_references.is_kinematic = false := by
    unfold RigidBody.is_kinematic RigidBody.reset_internal_references
    simp [hdyn]
  have hd : rb.reset_internal_references.is_dynamic = true := by
    unfold RigidBody.is_dynamic RigidBody.reset_internal_references
    simp [hdyn]
  simp only [hsl, hk, hd]
  rw [if_neg (by simp)]
  simp

theorem insert_sleeping_dynamic_inactive_witness :
    sleepingBody.body_status = BodyStatus.Dynamic ∧
    sleepingBody.activation.sleeping = true ∧
    ((RigidBodySet.new.insert sleepingBody).2.active_dynamic_set =
        RigidBodySet.new.active_dynamic_set ∧
      (RigidBodySet.new.insert sleepingBody).2.active_kinematic_set =
        RigidBodySet.new.active_kinematic_set ∧
      (RigidBodySet.new.insert sleepingBody).2.modified_inactive_set =
        RigidBodySet.new.modified_inactive_set) :=
  ⟨rfl, rfl, insert_sleeping_dynamic_inactive RigidBodySet.new sleepingBody
    rfl rfl⟩

/-- C10: `wake_up` on a stale handle or on a non-dynamic body returns
without modifying the body set at all. -/
theorem wake_up_stale_or_non_dynamic_noop (s : RigidBodySet)
    (handle : Index) (strong : Bool)
    (h : s.bodies.get handle = none ∨
      ∃ rb, s.bodies.get handle = some rb ∧
        rb.body_status ≠ BodyStatus.Dynamic) :
    s.wake_up handle strong = s := by
  unfold RigidBodySet.wake_up
  rcases h with hdead | ⟨rb, hget, hst⟩
  · rw [hdead]
  · rw [hget]
    simp only
    rw [if_neg (by
      unfold RigidBody.is_dynamic
      simpa using hst)]

theorem wake_up_stale_or_non_dynamic_noop_witness :
    (RigidBodySet.new.bodies.get ⟨0, 0⟩ = none ∨
      ∃ rb, RigidBodySet.new.bodies.get ⟨0, 0⟩ = some rb ∧
        rb.body_status ≠ BodyStatus.Dynamic) ∧
    RigidBodySet.new.wake_up ⟨0, 0⟩ true = RigidBodySet.new :=
  ⟨Or.inl rfl,
    wake_up_stale_or_non_dynamic_noop RigidBodySet.new ⟨0, 0⟩ true
      (Or.inl rfl)⟩

/-- C8: `ColliderSet::remove` on a contained handle returns the collider,
publishes exactly one `RemovedCollider { handle, proxy_index }` message,
frees the slot, and — when the parent body is still live — unregisters
the collider from the parent and strong-wakes it (code path `wake_up(_,
true)`, which clears the sleeping flag of a dynamic parent); on a
non-contained handle it returns `None`, publishes nothing, and leaves
both sets unchanged. -/
theorem collider_set_remove_spec (cs : ColliderSet) (handle : Index)
    (bodies : RigidBodySet) :
    (cs.contains handle = false →
      cs.remove handle bodies = (none, cs, bodies)) ∧
    (∀ c, cs.colliders.get handle = some c →
      (cs.remove handle bodies).1 = some c ∧
      (cs.remove handle bodies).2.1.removed_colliders =
        cs.removed_colliders ++ [⟨handle, c.proxy_index⟩] ∧
      (cs.remove handle bodies).2.1.colliders.get handle = none ∧
      (bodies.bodies.get c.parent = none →
        (cs.remove handle bodies).2.2 = bodies) ∧
      (∀ parent, bodies.bodies.get c.parent = some parent →
        ∃ parent2, (cs.remove handle bodies).2.2.bodies.get c.parent
            = some parent2 ∧
          parent2.colliders = parent.colliders.filter (· ≠ handle) ∧
          (parent.body_status = BodyStatus.Dynamic →
            parent2.activation.sleeping = false))) := by
  constructor
  · intro hnc
    unfold ColliderSet.remove
    have hget : cs.colliders.get handle = none := by
      unfold ColliderSet.contains Arena.contains at hnc
      cases hg : cs.colliders.get handle
      · rfl
      · rw [hg] at hnc
        simp at hnc
    have hrem : cs.colliders.remove handle = (none, cs.colliders) := by
      unfold Arena.remove
      rw [hget]
    rw [hrem]
  · intro c hget
    have hrem : cs.colliders.remove handle =
        (some c, ⟨cs.colliders.slots.set handle.idx ⟨handle.gen + 1, none⟩⟩) := by
      unfold Arena.remove
      rw [hget]
    unfold ColliderSet.remove
    rw [hrem]
    simp only
    refine ⟨trivial, trivial, ?_, ?_, ?_⟩
    · have := Arena.get_remove_same cs.colliders handle
      unfold Arena.remove at this
      rw [hget] at this
      exact this
    · intro hpar
      simp only [hpar]
    · intro parent hpar
      simp only [hpar]
      unfold RigidBodySet.wake_up
      have hget2 : (bodies.bodies.set c.parent
          (parent.remove_collider_internal handle)).get c.parent =
          some (parent.remove_collider_internal handle) :=
        Arena.get_set_same _ _ _ (by rw [hpar]; rfl)
      rw [hget2]
      simp only
      by_cases hd : (parent.remove_collider_internal handle).is_dynamic
      · rw [if_pos hd]
        have hdyn : parent.body_status = BodyStatus.Dynamic := by
          unfold RigidBody.is_dynamic RigidBody.remove_collider_internal
            at hd
          simpa using hd
        by_cases haddr : bodies.active_dynamic_set[
            ((parent.remove_collider_internal handle).wake_up true
              ).active_set_id]? = some c.parent
        · rw [if_pos haddr]
          refine ⟨(parent.remove_collider_internal handle).wake_up true,
            ?_, rfl, fun _ => rfl⟩
          exact Arena.get_set_same _ _ _ (by rw [hget2]; rfl)
        · rw [if_neg haddr]
          refine ⟨{ (parent.remove_collider_internal handle).wake_up true
              with active_set_id := bodies.active_dynamic_set.length },
            ?_, rfl, fun _ => rfl⟩
          exact Arena.get_set_same _ _ _ (by rw [hget2]; rfl)
      · rw [if_neg hd]
        have hnd : ¬parent.body_status = BodyStatus.Dynamic := by
          intro hc
          apply hd
          unfold RigidBody.is_dynamic RigidBody.remove_collider_internal
          simp [hc]
        exact ⟨parent.remove_collider_internal handle, hget2, rfl,
          fun hc => absurd hc hnd⟩

/-- C1 counterexample: with no dynamic body awake and an empty traversal
stack (here: the empty body set), `update_active_set_with_contacts`
produces `active_islands = [0, 0]`, which is *not* strictly increasing —
refuting the claim that `active_islands` is strictly increasing for every
input. -/
theorem update_islands_not_strict_counterexample :
    (RigidBodySet.new.update_active_set_with_contacts ColliderSet.new
        noContacts noJoints 1 zeroEnergy 1).map
        (fun st => st.active_islands) = some [0, 0] ∧
    ¬List.Chain' (· < ·) ([0, 0] : List Nat) := by
  constructor
  · rfl
  · rw [List.chain'_cons]
    simp

/-- C1 (amended): after every completed
`update_active_set_with_contacts`, `active_islands` starts at 0, ends at
`active_dynamic_set.len()`, is monotone, and is strictly increasing
whenever `active_dynamic_set` is non-empty; when no dynamic body ends
active it is exactly `[0, 0]`.  The island count is
`active_islands.len() - 1`. -/
theorem update_active_set_islands_partition (s : RigidBodySet)
    (cs : ColliderSet)
    (contacts_with : Index → Option (List (Index × Index × ContactPair)))
    (joint_graph : Nat → List (Index × Index)) (min_island_size : Nat)
    (updE : RigidBody → ℚ) (fuel : Nat) (s' : RigidBodySet)
    (hInv : RigidBodySet.InvFull s)
    (hupd : s.update_active_set_with_contacts cs contacts_with joint_graph
      min_island_size updE fuel = some s') :
    s'.active_islands.head? = some 0 ∧
    s'.active_islands.getLast? = some s'.active_dynamic_set.length ∧
    List.Chain' (· ≤ ·) s'.active_islands ∧
    (s'.active_dynamic_set ≠ [] →
      List.Chain' (· < ·) s'.active_islands) ∧
    (s'.active_dynamic_set = [] → s'.active_islands = [0, 0]) ∧
    s'.num_islands = s'.active_islands.length - 1 := by
  obtain ⟨_, h1, h2, h3, h4, h5, _⟩ :=
    RigidBodySet.update_master s cs contacts_with joint_graph
      min_island_size updE fuel s' hInv hupd
  exact ⟨h1, h2, h3, h4, h5, rfl⟩

theorem update_active_set_islands_partition_witness :
    RigidBodySet.InvFull restingSet ∧
    (restingSet.update_active_set_with_contacts ColliderSet.new noContacts
      noJoints 1 zeroEnergy 1 = some restingAfter) ∧
    (restingAfter.active_islands.head? = some 0 ∧
      restingAfter.active_islands.getLast? =
        some restingAfter.active_dynamic_set.length ∧
      List.Chain' (· ≤ ·) restingAfter.active_islands ∧
      (restingAfter.active_dynamic_set ≠ [] →
        List.Chain' (· < ·) restingAfter.active_islands) ∧
      (restingAfter.active_dynamic_set = [] →
        restingAfter.active_islands = [0, 0]) ∧
      restingAfter.num_islands = restingAfter.active_islands.length - 1) :=
  ⟨by decide, by decide,
    update_active_set_islands_partition restingSet ColliderSet.new
      noContacts noJoints 1 zeroEnergy 1 restingAfter (by decide)
      (by decide)⟩

/-- C2: every one of the five public mutations — `insert`, `remove`,
`wake_up`, `maintain_active_set`, `update_active_set_with_contacts` —
preserves active-set injectivity (`V[i].active_set_id == i` for both
active vectors) and the disjointness of the two active vectors, starting
from any state satisfying the active-set invariant. -/
theorem active_set_injectivity_preserved :
    (∀ (s : RigidBodySet) (rb : RigidBody), RigidBodySet.InvFull s →
      RigidBodySet.ActiveSetInjective (s.insert rb).2) ∧
    (∀ (s : RigidBodySet) (handle : Index) (cs : ColliderSet)
      (jn : Nat → List Index)
      (r : Option RigidBody × RigidBodySet × ColliderSet),
      RigidBodySet.InvFull s → s.remove handle cs jn = some r →
      RigidBodySet.ActiveSetInjective r.2.1) ∧
    (∀ (s : RigidBodySet) (handle : Index) (strong : Bool),
      RigidBodySet.InvFull s →
      RigidBodySet.ActiveSetInjective (s.wake_up handle strong)) ∧
    (∀ s : RigidBodySet, RigidBodySet.InvFull s →
      RigidBodySet.ActiveSetInjective s.maintain_active_set) ∧
    (∀ (s : RigidBodySet) (cs : ColliderSet)
      (contacts_with : Index → Option (List (Index × Index × ContactPair)))
      (joint_graph : Nat → List (Index × Index)) (min_island_size : Nat)
      (updE : RigidBody → ℚ) (fuel : Nat) (s' : RigidBodySet),
      RigidBodySet.InvFull s →
      s.update_active_set_with_contacts cs contacts_with joint_graph
        min_island_size updE fuel = some s' →
      RigidBodySet.ActiveSetInjective s') := by
  refine ⟨?_, ?_, ?_, ?_, ?_⟩
  · intro s rb hInv
    exact RigidBodySet.InvFull_to_injective _
      (RigidBodySet.insert_preserves_InvFull s rb hInv)
  · intro s handle cs jn r hInv hrm
    exact RigidBodySet.InvFull_to_injective _
      (RigidBodySet.remove_preserves_InvFull s handle cs jn hInv r hrm)
  · intro s handle strong hInv
    exact RigidBodySet.InvFull_to_injective _
      (RigidBodySet.wake_up_preserves_InvFull s handle strong hInv)
  · intro s hInv
    exact RigidBodySet.InvFull_to_injective _
      (RigidBodySet.maintain_preserves_InvFull s hInv)
  · intro s cs cw jg mis updE fuel s' hInv hupd
    exact RigidBodySet.InvFull_to_injective _
      (RigidBodySet.update_master s cs cw jg mis updE fuel s' hInv hupd).1

theorem active_set_injectivity_preserved_witness :
    RigidBodySet.ActiveSetInjective (RigidBodySet.new.insert restingBody).2 :=
  active_set_injectivity_preserved.1 RigidBodySet.new restingBody (by decide)

/-- C3: after a completed `update_active_set_with_contacts`, every
`can_sleep` candidate that was not reached by the traversal (not in the
final `active_dynamic_set`) is sleeping with `sleep()` applied (zero
velocity, cleared energy), and every candidate that was reached is awake
in `active_dynamic_set` and was not put to sleep. -/
theorem update_active_set_sleep_commit (s : RigidBodySet)
    (cs : ColliderSet)
    (contacts_with : Index → Option (List (Index × Index × ContactPair)))
    (joint_graph : Nat → List (Index × Index)) (min_island_size : Nat)
    (updE : RigidBody → ℚ) (fuel : Nat) (s' : RigidBodySet)
    (hInv : RigidBodySet.InvFull s)
    (hupd : s.update_active_set_with_contacts cs contacts_with joint_graph
      min_island_size updE fuel = some s') :
    ∀ h, h ∈ s'.can_sleep →
      (h ∉ s'.active_dynamic_set → ∃ b, s'.bodies.get h = some b ∧
        b.activation.sleeping = true ∧ b.linvel = 0 ∧ b.angvel = 0 ∧
        b.activation.energy = 0) ∧
      (h ∈ s'.active_dynamic_set → ∃ b, s'.bodies.get h = some b ∧
        b.activation.sleeping = false) :=
  (RigidBodySet.update_master s cs contacts_with joint_graph
    min_island_size updE fuel s' hInv hupd).2.2.2.2.2.2

theorem update_active_set_sleep_commit_witness :
    RigidBodySet.InvFull restingSet ∧
    (restingSet.update_active_set_with_contacts ColliderSet.new noContacts
      noJoints 1 zeroEnergy 1 = some restingAfter) ∧
    (⟨0, 0⟩ : Index) ∈ restingAfter.can_sleep ∧
    ((⟨0, 0⟩ : Index) ∉ restingAfter.active_dynamic_set →
      ∃ b, restingAfter.bodies.get ⟨0, 0⟩ = some b ∧
        b.activation.sleeping = true ∧ b.linvel = 0 ∧ b.angvel = 0 ∧
        b.activation.energy = 0) :=
  ⟨by decide, by decide, by decide,
    (update_active_set_sleep_commit restingSet ColliderSet.new noContacts
      noJoints 1 zeroEnergy 1 restingAfter (by decide) (by decide) ⟨0, 0⟩
      (by decide)).1⟩

/-- C4 (code bug): the source guards the internal push of both
`intersect_aabb` and `cast_ray` with `children[ii] as usize <=
self.nodes.len()` rather than the `<` the claim states.  With a lane test
that reports hits on invalid lanes — which the specification itself warns
is possible — the root of `guardTree` stores the child index
`1 = nodes.len()`; the `<=` guard pushes it and the next pop indexes
`nodes` out of bounds, so both queries panic (`none`), refuting the claim
that every popped index is in bounds.  Under the specification's `<`
guard (the `claim_` variants) the same queries return without
emitting. -/
theorem intersect_and_cast_guard_off_by_one :
    guardTree.nodes.length = 1 ∧
    (guardTree.nodes[0]?.map fun n => n.children 0) =
      some guardTree.nodes.length ∧
    WQuadtree.intersect_aabb allHit guardTree unitAabb 2 = none ∧
    WQuadtree.cast_ray allRayHit guardTree ⟨⟨0, 0⟩, ⟨1, 0⟩⟩ 1 2 = none ∧
    claim_intersect_aabb allHit guardTree unitAabb 2 = some [] ∧
    claim_cast_ray allRayHit guardTree ⟨⟨0, 0⟩, ⟨1, 0⟩⟩ 1 2 = some [] :=
  ⟨rfl, rfl, rfl, rfl, rfl, rfl⟩

/-- C5: `split_indices_wrt_dim` on any slice of length ≥ 2 returns two
non-empty sub-slices that partition the input (falling back to a split at
the middle index when the axis partition would leave a side empty), so
every recursive call of `do_recurse_build` receives a strictly shorter
slice and the recursion is well-founded — `do_recurse_build` and
`clear_and_rebuild` are total functions of this development.  In
particular the build of 20 proxies with identical AABBs completes into a
tree with all 20 proxies and a root plus at least one built node. -/
theorem clear_and_rebuild_split_termination :
    (∀ (indices : List Nat) (aabbs : Nat → AABB) (p : Point2) (dim : Nat),
      2 ≤ indices.length →
      (split_indices_wrt_dim indices aabbs p dim).1 ≠ [] ∧
      (split_indices_wrt_dim indices aabbs p dim).2 ≠ [] ∧
      (split_indices_wrt_dim indices aabbs p dim).1.length
        < indices.length ∧
      (split_indices_wrt_dim indices aabbs p dim).2.length
        < indices.length ∧
      ((split_indices_wrt_dim indices aabbs p dim).1 ++
        (split_indices_wrt_dim indices aabbs p dim).2).Perm indices) ∧
    identTree20.proxies.length = 20 ∧
    1 < identTree20.nodes.length ∧
    identTree20.dirty_nodes = [] := by
  have hfacts := WQuadtree.clear_and_rebuild_facts WQuadtree.mk_new u32Max
    (fun i => i) identData20 id
  refine ⟨?_, ?_, ?_, ?_⟩
  · intro indices aabbs p dim h2
    obtain ⟨hn1, hn2⟩ := split_indices_nonempty indices aabbs p dim h2
    exact ⟨hn1, hn2, split_fst_length_lt _ _ _ _ h2,
      split_snd_length_lt _ _ _ _ h2,
      (split_indices_parts indices aabbs p dim).1⟩
  · rw [show identTree20 = WQuadtree.mk_new.clear_and_rebuild u32Max
        (fun i => i) identData20 id from rfl, hfacts.1]
    rfl
  · exact hfacts.2.1
  · exact hfacts.2.2

theorem clear_and_rebuild_split_termination_witness :
    2 ≤ ([5, 9] : List Nat).length ∧
    ((split_indices_wrt_dim [5, 9] (fun _ => unitAabb) ⟨0, 0⟩ 0).1 ≠ [] ∧
      (split_indices_wrt_dim [5, 9] (fun _ => unitAabb) ⟨0, 0⟩ 0).2 ≠ [] ∧
      (split_indices_wrt_dim [5, 9] (fun _ => unitAabb) ⟨0, 0⟩ 0).1.length
        < ([5, 9] : List Nat).length ∧
      (split_indices_wrt_dim [5, 9] (fun _ => unitAabb) ⟨0, 0⟩ 0).2.length
        < ([5, 9] : List Nat).length ∧
      ((split_indices_wrt_dim [5, 9] (fun _ => unitAabb) ⟨0, 0⟩ 0).1 ++
        (split_indices_wrt_dim [5, 9] (fun _ => unitAabb) ⟨0, 0⟩ 0).2).Perm
        [5, 9]) :=
  ⟨by decide, clear_and_rebuild_split_termination.1 [5, 9]
    (fun _ => unitAabb) ⟨0, 0⟩ 0 (by decide)⟩

/-- C6: one iteration of `WQuadtree::update` pops the front id of the
dirty queue; an id with no node is skipped; for a live node the four lane
AABBs are recomputed (leaf lanes through the proxy's collider
`compute_aabb()`, internal lanes through the child node's
`waabb.to_merged_aabb()` — the `claimLane` map); if the stored pack
already contains the candidate in all four lanes only the dirty flag is
cleared, otherwise the pack is replaced by the dilated candidate and the
parent is enqueued; the dirty flag is cleared in both cases. -/
theorem wquadtree_update_step_spec {T : Type} (colliders : T → Option AABB)
    (dilate : WAABB → WAABB) (qt : WQuadtree T) (id : Nat)
    (rest : List Nat) (hd : qt.dirty_nodes = id :: rest) :
    (qt.nodes[id]? = none →
      WQuadtree.update_step colliders dilate qt =
        some { qt with dirty_nodes := rest }) ∧
    (∀ node, qt.nodes[id]? = some node →
      ∀ new_waabb : WAABB,
        (∀ i, claimLane colliders qt node i = some (new_waabb i)) →
        (node.waabb.contains_all new_waabb = true →
          WQuadtree.update_step colliders dilate qt =
            some { qt with
              nodes := qt.nodes.set id { node with dirty := false },
              dirty_nodes := rest }) ∧
        (node.waabb.contains_all new_waabb = false →
          WQuadtree.update_step colliders dilate qt =
            some { qt with
              nodes := qt.nodes.set id
                { node with waabb := dilate new_waabb, dirty := false },
              dirty_nodes := rest ++ [node.parent.index] })) := by
  have hstep : WQuadtree.update_step colliders dilate qt =
      WQuadtree.update_iter colliders dilate
        { qt with dirty_nodes := rest } id := by
    unfold WQuadtree.update_step
    rw [hd]
  constructor
  · intro hnone
    rw [hstep]
    unfold WQuadtree.update_iter
    rw [show ({ qt with dirty_nodes := rest } :
        WQuadtree T).nodes[id]? = none from hnone]
  · intro node hnode new_waabb hlane
    have h := update_iter_spec colliders dilate
      { qt with dirty_nodes := rest } id node hnode new_waabb hlane
    constructor
    · intro hc
      rw [hstep, h, if_pos (by rw [hc])]
    · intro hc
      rw [hstep, h, if_neg (by rw [hc]; exact Bool.false_ne_true)]

theorem wquadtree_update_step_spec_witness :
    dirtyLeafTree.dirty_nodes = 0 :: [] ∧
    dirtyLeafTree.nodes[0]? = some dirtyLeafNode ∧
    claimLane movedColliders dirtyLeafTree dirtyLeafNode 0 = some bigAabb ∧
    claimLane movedColliders dirtyLeafTree dirtyLeafNode 1 = some unitAabb ∧
    claimLane movedColliders dirtyLeafTree dirtyLeafNode 2 = some unitAabb ∧
    claimLane movedColliders dirtyLeafTree dirtyLeafNode 3 = some unitAabb ∧
    dirtyLeafNode.waabb.contains_all
      ![bigAabb, unitAabb, unitAabb, unitAabb] = false ∧
    WQuadtree.update_step movedColliders id dirtyLeafTree =
      some { dirtyLeafTree with
        nodes := dirtyLeafTree.nodes.set 0
          { dirtyLeafNode with
            waabb := id ![bigAabb, unitAabb, unitAabb, unitAabb],
            dirty := false },
        dirty_nodes := [] ++ [dirtyLeafNode.parent.index] } :=
  ⟨rfl, rfl, rfl, rfl, rfl, rfl, by decide,
    ((wquadtree_update_step_spec movedColliders id dirtyLeafTree 0 []
        rfl).2 dirtyLeafNode rfl
      (![bigAabb, unitAabb, unitAabb, unitAabb] : WAABB)
      (fun i => by fin_cases i <;> rfl)).2 (by decide)⟩

theorem collider_set_remove_spec_witness :
    wCollSet.colliders.get ⟨0, 0⟩ = some wColl ∧
    restingSet.bodies.get wColl.parent = some
      { restingBody with colliders := [], joint_graph_index := 0 } ∧
    ((wCollSet.remove ⟨0, 0⟩ restingSet).1 = some wColl ∧
      (wCollSet.remove ⟨0, 0⟩ restingSet).2.1.removed_colliders =
        wCollSet.removed_colliders ++ [⟨⟨0, 0⟩, wColl.proxy_index⟩] ∧
      (wCollSet.remove ⟨0, 0⟩ restingSet).2.1.colliders.get ⟨0, 0⟩
        = none ∧
      (restingSet.bodies.get wColl.parent = none →
        (wCollSet.remove ⟨0, 0⟩ restingSet).2.2 = restingSet) ∧
      (∀ parent, restingSet.bodies.get wColl.parent = some parent →
        ∃ parent2, (wCollSet.remove ⟨0, 0⟩ restingSet).2.2.bodies.get
            wColl.parent = some parent2 ∧
          parent2.colliders = parent.colliders.filter (· ≠ (⟨0, 0⟩ : Index)) ∧
          (parent.body_status = BodyStatus.Dynamic →
            parent2.activation.sleeping = false))) :=
  ⟨rfl, rfl, (collider_set_remove_spec wCollSet ⟨0, 0⟩ restingSet).2
    wColl rfl⟩

end Rapier
